import Mathlib

/-!
Shallow embedding of the uloop event loop core (uloop.c) and proofs about the
properties claimed by its specification.

Conventions used throughout:
* C `struct timeval` fields are unbounded `Int` (the C fields are 64-bit and
  none of the verified operations can overflow them on the claimed inputs);
  C truncating division/remainder are `Int.tdiv`/`Int.tmod`.
* Watcher objects (`struct uloop_timeout`, `struct uloop_process`,
  `struct uloop_signal`, `struct uloop_fd`) live outside the loop's lists; we
  model the heap of watcher objects as a function from an id (`Nat`) to the
  object's fields, and an intrusive `list_head` list as the `List` of ids
  linked into it, in link order.
* Callbacks are opaque C function pointers; where a claim needs them they are
  abstracted as oracle state transformers, and the model records the order in
  which they are invoked.
-/

namespace Uloop

/-! ### struct timeval and tv_diff (uloop.c:292) -/

/-- Model of `struct timeval`: seconds and microseconds, as in `uloop_gettime`. -/
structure Timeval where
  tv_sec : Int
  tv_usec : Int
deriving Repr, DecidableEq

/-- Embedding of `tv_diff` (uloop.c:292): millisecond difference
`(t1->tv_sec - t2->tv_sec) * 1000 + (t1->tv_usec - t2->tv_usec) / 1000`,
with C's truncating integer division. -/
def tv_diff (t1 t2 : Timeval) : Int :=
  (t1.tv_sec - t2.tv_sec) * 1000 + Int.tdiv (t1.tv_usec - t2.tv_usec) 1000

/-- True order on deadlines: lexicographic on (seconds, microseconds). The spec
speaks of "non-decreasing deadline order"; this relation is what "deadline x ≤
deadline y" denotes for actual `struct timeval` values. -/
def tvLe (a b : Timeval) : Prop :=
  a.tv_sec < b.tv_sec ∨ (a.tv_sec = b.tv_sec ∧ a.tv_usec ≤ b.tv_usec)

instance (a b : Timeval) : Decidable (tvLe a b) := by
  unfold tvLe; infer_instance

/-! ### Timer queue (uloop.c:299-358, 596-613) -/

/-- Fields of `struct uloop_timeout` relevant to the timer queue: the absolute
deadline `time` and the `pending` flag. The callback is handled separately. -/
structure TimerObj where
  time : Timeval
  pending : Bool
deriving Repr, DecidableEq

/-- Timer-queue state: the heap of timeout objects (indexed by id) and the
global `timeouts` list (uloop.c:58) as the list of linked ids in link order. -/
structure TState where
  objs : Nat → TimerObj
  tlist : List Nat

/-- The caller writing `timeout->time` before calling `uloop_timeout_add`
(`uloop_timeout_set` does the same store internally via `uloop_gettime`). -/
def writeTime (s : TState) (id : Nat) (t : Timeval) : TState :=
  { s with objs := fun j => if j = id then { s.objs j with time := t } else s.objs j }

/-- The list walk of `uloop_timeout_add` (uloop.c:307-314): insert before the
first entry whose deadline is strictly later (`tv_diff(&tmp->time, &timeout->time) > 0`),
else at the tail (`list_add_tail(&timeout->list, h)` with `h = &timeouts`). -/
def timeoutInsert (objs : Nat → TimerObj) (t : Timeval) (id : Nat) : List Nat → List Nat
  | [] => [id]
  | x :: xs =>
    if tv_diff (objs x).time t > 0 then id :: x :: xs
    else x :: timeoutInsert objs t id xs

/-- Embedding of `uloop_timeout_add` (uloop.c:299): `-1` if already pending,
otherwise link into the sorted position and set `pending`. -/
def uloop_timeout_add (s : TState) (id : Nat) : Int × TState :=
  if (s.objs id).pending then (-1, s)
  else
    (0, { objs := fun j => if j = id then { s.objs j with pending := true } else s.objs j,
          tlist := timeoutInsert s.objs (s.objs id).time id s.tlist })

/-- Embedding of `uloop_timeout_cancel` (uloop.c:349): `-1` if not pending,
otherwise `list_del` (the unique linked occurrence) and clear `pending`. -/
def uloop_timeout_cancel (s : TState) (id : Nat) : Int × TState :=
  if !(s.objs id).pending then (-1, s)
  else
    (0, { objs := fun j => if j = id then { s.objs j with pending := false } else s.objs j,
          tlist := s.tlist.erase id })

/-- The deadline arithmetic of `uloop_timeout_set` (uloop.c:336-344):
`now + msecs` with C truncating division/remainder for the seconds and
microseconds split, and the single carry step when `tv_usec > 1000000`. `now`
is the `uloop_gettime` sample. -/
def setDeadline (msecs : Int) (now : Timeval) : Timeval :=
  let t0 : Timeval :=
    { tv_sec := now.tv_sec + Int.tdiv msecs 1000,
      tv_usec := now.tv_usec + Int.tmod msecs 1000 * 1000 }
  if t0.tv_usec > 1000000 then { tv_sec := t0.tv_sec + 1, tv_usec := t0.tv_usec - 1000000 }
  else t0

/-- Embedding of `uloop_timeout_set` (uloop.c:329) proper: cancel if pending,
store the computed deadline into `timeout->time`, then `uloop_timeout_add`. -/
def uloop_timeout_set (s : TState) (id : Nat) (msecs : Int) (now : Timeval) : Int × TState :=
  let s1 := if (s.objs id).pending then (uloop_timeout_cancel s id).2 else s
  uloop_timeout_add (writeTime s1 id (setDeadline msecs now)) id

/-- The firing walk of `uloop_process_timeouts` (uloop.c:596-613) on the list
alone: returns (fired ids in firing order, remaining list, return value). The
walk repeatedly takes the list head `t`, returns `tv_diff(&t->time, tv)` as soon
as it is `> 0`, else unlinks `t` and fires it; result `-1` when the list drains. -/
def processTimeoutsList (objs : Nat → TimerObj) (now : Timeval) :
    List Nat → List Nat × List Nat × Int
  | [] => ([], [], -1)
  | x :: xs =>
    let res := tv_diff (objs x).time now
    if res > 0 then ([], x :: xs, res)
    else
      let r := processTimeoutsList objs now xs
      (x :: r.1, r.2)

/-- Embedding of `uloop_process_timeouts` (uloop.c:596) at the state level: each
fired timeout is unlinked and its `pending` flag cleared (via
`uloop_timeout_cancel`) before its callback runs; callback bodies are not
modelled here (their invocation order is the returned fired list). -/
def uloop_process_timeouts (s : TState) (now : Timeval) : TState × List Nat × Int :=
  let r := processTimeoutsList s.objs now s.tlist
  ({ objs := fun j => if j ∈ r.1 then { s.objs j with pending := false } else s.objs j,
     tlist := r.2.1 },
   r.1, r.2.2)

/-- One operation of the timer-queue API, as in spec §8 property 1. `add`
models the caller storing `time` into a timeout it owns and then calling
`uloop_timeout_add` (when the timeout is already pending, the call returns `-1`
before reading `time`, and the op has no effect). `fire` is one
`uloop_process_timeouts` pass at a sampled `now`. -/
inductive TOp where
  | add (id : Nat) (t : Timeval)
  | set (id : Nat) (msecs : Int) (now : Timeval)
  | cancel (id : Nat)
  | fire (now : Timeval)

/-- Apply one timer-queue operation to the state. -/
def tApply (s : TState) : TOp → TState
  | .add id t => if (s.objs id).pending then s else (uloop_timeout_add (writeTime s id t) id).2
  | .set id msecs now => (uloop_timeout_set s id msecs now).2
  | .cancel id => (uloop_timeout_cancel s id).2
  | .fire now => (uloop_process_timeouts s now).1

/-- Run a sequence of timer-queue operations. -/
def tRun (s : TState) (ops : List TOp) : TState :=
  ops.foldl tApply s

/-- The empty initial timer-queue state (all timeouts non-pending, empty list). -/
def initTState : TState :=
  { objs := fun _ => { time := { tv_sec := 0, tv_usec := 0 }, pending := false },
    tlist := [] }

/-- A `struct timeval` as the loop's own clock sampling and deadline
arithmetic produce them: `uloop_gettime` yields `0 ≤ tv_usec ≤ 999999` and the
single carry step of `uloop_timeout_set` keeps `0 ≤ tv_usec ≤ 1000000` (the
spec notes that exactly `1000000` is left unnormalized). -/
def Normalized (t : Timeval) : Prop :=
  0 ≤ t.tv_usec ∧ t.tv_usec ≤ 1000000

/-- The order actually maintained by the insertion walk: linked timeouts `a`
before `b` always satisfy `tv_diff(a.time, b.time) ≤ 0` (truncated-millisecond
comparison), not the full timeval order. -/
def TSorted (s : TState) : Prop :=
  List.Pairwise (fun a b => tv_diff (s.objs a).time (s.objs b).time ≤ 0) s.tlist

/-- Every timeout's `pending` flag is set iff the timeout is linked in
the `timeouts` list. -/
def TPendingIffLinked (s : TState) : Prop :=
  ∀ id, (s.objs id).pending = true ↔ id ∈ s.tlist

/-- Timer-queue invariant: no double links, pairwise tv_diff order of the
linked timeouts, `pending` ⇔ linked, and all linked deadlines normalized. -/
def TInv (s : TState) : Prop :=
  s.tlist.Nodup ∧ TSorted s ∧ TPendingIffLinked s ∧
    ∀ id ∈ s.tlist, Normalized (s.objs id).time

/-- Validity of a timer-queue operation: deadlines handed to
`uloop_timeout_add` are normalized timevals, and `uloop_timeout_set` is called
with a nonnegative millisecond count and a normalized clock sample (what
`uloop_gettime` returns). Cancellation and firing are always valid. -/
def TOpValid : TOp → Prop
  | .add _ t => Normalized t
  | .set _ msecs now => 0 ≤ msecs ∧ Normalized now
  | .cancel _ => True
  | .fire _ => True

instance (t : Timeval) : Decidable (Normalized t) := by
  unfold Normalized; infer_instance

instance : DecidablePred TOpValid := fun op => by
  cases op <;> simp only [TOpValid] <;> infer_instance

/-- The firing predicate of `uloop_process_timeouts` at sampled time `now`:
the head keeps being fired while `tv_diff(&t->time, tv) ≤ 0`. -/
def firesNow (objs : Nat → TimerObj) (now : Timeval) (x : Nat) : Bool :=
  decide (tv_diff (objs x).time now ≤ 0)

/-! ### Signal bridge bitset (uloop.c:85-114) -/

/-- Embedding of `set_signo` (uloop.c:85): `*signums |= (1u << (signo - 1))`
guarded by `1 <= signo && signo <= 64`. `signums` is `uint64_t`, but the literal
`1u` is a 32-bit `unsigned int`: for `signo` in 33..64 the shift count reaches
32..63, which C leaves undefined for a 32-bit operand and which the generated
code on the supported targets (x86, ARM) performs with the count taken mod 32.
The embedding uses that compiled behaviour; no defined behaviour of the
expression can set a bit at position ≥ 32. -/
def set_signo (signums : Nat) (signo : Int) : Nat :=
  if 1 ≤ signo ∧ signo ≤ 64 then signums ||| (1 <<< ((signo - 1).toNat % 32))
  else signums

/-- Embedding of `get_signo` (uloop.c:91): same range guard and the same 32-bit
`1u` mask test `signums & (1u << (signo - 1))`. -/
def get_signo (signums : Nat) (signo : Int) : Bool :=
  decide (1 ≤ signo) && decide (signo ≤ 64) &&
    (signums &&& (1 <<< ((signo - 1).toNat % 32)) != 0)

/-- The drain loop of `signal_consume` (uloop.c:103-109): each byte read from
the self-pipe (a `uint8_t`, so 0..255) is OR-ed into the `signums` bitset via
`set_signo`, starting from 0. -/
def drain_signums (bytes : List Nat) : Nat :=
  bytes.foldl (fun acc b => set_signo acc (Int.ofNat b)) 0

/-- The delivery walk of `signal_consume` (uloop.c:111-113): one pass over the
registered signal-watcher list (given by its `signo` fields in link order); each
watcher whose `signo` passes `get_signo` has its callback invoked, and no
watcher is unlinked. The result is the ordered list of invoked watchers. -/
def signal_consume_invoked (signums : Nat) (watchers : List Int) : List Int :=
  watchers.filter (fun s => get_signo signums s)

/-! ### Signal watcher registration (uloop.c:551-594) -/

/-- Abstraction of a `sigaction` disposition: the bridge trampoline
`uloop_signal_wake`, the default `SIG_DFL`, or some other (third-party)
handler identified by a number. -/
inductive Handler where
  | wake
  | dfl
  | custom (n : Nat)
deriving Repr, DecidableEq

/-- Fields of `struct uloop_signal`: the signal number, the `pending` flag and
the saved prior disposition `orig`. -/
structure SigObj where
  signo : Int
  pending : Bool
  orig : Handler
deriving Repr, DecidableEq

/-- Signal-subsystem state: the heap of watcher objects, the global `signals`
list (linked ids in order), and the per-signo currently-installed process-wide
`sigaction` disposition. -/
structure SState where
  sigs : Nat → SigObj
  slist : List Nat
  installed : Int → Handler

/-- The list walk of `uloop_signal_add` (uloop.c:560-565): insert before the
first watcher with a strictly greater `signo`, else at the tail. -/
def sigInsert (sigs : Nat → SigObj) (signo : Int) (id : Nat) : List Nat → List Nat
  | [] => [id]
  | x :: xs =>
    if (sigs x).signo > signo then id :: x :: xs
    else x :: sigInsert sigs signo id xs

/-- Embedding of `uloop_signal_add` (uloop.c:551): `-1` if pending; otherwise
link into the signo-sorted position, set `pending`, save the current
disposition into `orig` (`sigaction(s->signo, NULL, &s->orig)`), and install
the bridge trampoline iff the saved disposition is not already the bridge. -/
def uloop_signal_add (s : SState) (id : Nat) : Int × SState :=
  if (s.sigs id).pending then (-1, s)
  else
    let signo := (s.sigs id).signo
    let orig := s.installed signo
    let sigs' := fun j => if j = id then { s.sigs j with pending := true, orig := orig }
                          else s.sigs j
    let installed' :=
      if orig ≠ Handler.wake then
        fun n => if n = signo then Handler.wake else s.installed n
      else s.installed
    (0, { sigs := sigs', slist := sigInsert s.sigs signo id s.slist, installed := installed' })

/-- Embedding of `uloop_signal_delete` (uloop.c:582): `-1` if not pending;
otherwise unlink, clear `pending`, and write the saved `orig` disposition back
iff `s->orig.sa_handler != uloop_signal_wake` — the guard reads the watcher's
saved handler, not the currently-installed one. -/
def uloop_signal_delete (s : SState) (id : Nat) : Int × SState :=
  if !(s.sigs id).pending then (-1, s)
  else
    let sd := s.sigs id
    let sigs' := fun j => if j = id then { s.sigs j with pending := false } else s.sigs j
    let installed' :=
      if sd.orig ≠ Handler.wake then
        fun n => if n = sd.signo then sd.orig else s.installed n
      else s.installed
    (0, { sigs := sigs', slist := s.slist.erase id, installed := installed' })

/-- A third party overwriting the process-wide disposition of one signal
(outside any uloop API call). -/
def thirdPartyInstall (s : SState) (signo : Int) (h : Handler) : SState :=
  { s with installed := fun n => if n = signo then h else s.installed n }

/-! ### Process watchers and the child reaper (uloop.c:392-452) -/

/-- Fields of `struct uloop_process` relevant to the reaper: the target `pid`
and the `pending` flag. -/
structure ProcObj where
  pid : Int
  pending : Bool
deriving Repr, DecidableEq

/-- Process-watcher state: the heap of watcher objects and the global
`processes` list (linked ids in order). -/
structure PState where
  procs : Nat → ProcObj
  plist : List Nat

/-- The list walk of `uloop_process_add` (uloop.c:400-405): insert before the
first watcher with a strictly greater `pid`, else at the tail (so watchers with
an equal `pid` stay in insertion order). -/
def procInsert (procs : Nat → ProcObj) (pid : Int) (id : Nat) : List Nat → List Nat
  | [] => [id]
  | x :: xs =>
    if (procs x).pid > pid then id :: x :: xs
    else x :: procInsert procs pid id xs

/-- Embedding of `uloop_process_add` (uloop.c:392): `-1` if pending, otherwise
link into the pid-sorted position and set `pending`. -/
def uloop_process_add (s : PState) (id : Nat) : Int × PState :=
  if (s.procs id).pending then (-1, s)
  else
    (0, { procs := fun j => if j = id then { s.procs j with pending := true } else s.procs j,
          plist := procInsert s.procs (s.procs id).pid id s.plist })

/-- Embedding of `uloop_process_delete` (uloop.c:413): `-1` if not pending,
otherwise unlink and clear `pending`. -/
def uloop_process_delete (s : PState) (id : Nat) : Int × PState :=
  if !(s.procs id).pending then (-1, s)
  else
    (0, { procs := fun j => if j = id then { s.procs j with pending := false } else s.procs j,
          plist := s.plist.erase id })

/-- The per-reap walk of `uloop_handle_processes` (uloop.c:440-449) for one
`waitpid` result `pid`: `continue` past watchers with a smaller pid, `break` at
the first watcher with a greater pid, and for every exact match
`uloop_process_delete(p)` then `p->cb(p, ret)`. Returns the remaining list and
the matched ids in callback-invocation order. -/
def reapWalk (procs : Nat → ProcObj) (pid : Int) : List Nat → List Nat × List Nat
  | [] => ([], [])
  | p :: ps =>
    if (procs p).pid < pid then
      let r := reapWalk procs pid ps
      (p :: r.1, r.2)
    else if (procs p).pid > pid then (p :: ps, [])
    else
      let r := reapWalk procs pid ps
      (r.1, p :: r.2)

/-- State-level effect of one reap of `pid` with `waitpid` status `ret` inside
`uloop_handle_processes`: every matched watcher is unlinked and its `pending`
cleared before its callback runs with `ret`; the returned trace is the list of
(watcher id, status) callback invocations in order. -/
def uloop_handle_one_reap (s : PState) (pid : Int) (ret : Int) :
    PState × List (Nat × Int) :=
  let r := reapWalk s.procs pid s.plist
  ({ procs := fun j => if j ∈ r.2 then { s.procs j with pending := false } else s.procs j,
     plist := r.1 },
   r.2.map (fun j => (j, ret)))

/-! ### Event flag bits

Modelled from the spec: the flag constants live in `uloop.h`, which is not part
of the provided sources. Spec §6.1 names READ, WRITE, EDGE_TRIGGER and BLOCKING
as request bits and an internal "event buffered" bit outside the delivered
event mask; the concrete values below are distinct single bits with
`ULOOP_EVENT_BUFFERED` outside `ULOOP_EVENT_MASK = READ ||| WRITE`. None of the
verified claims depends on the numeric choice. -/

/-- Modelled from the spec: the READ request/delivery bit (§6.1). -/
def ULOOP_READ : Nat := 1

/-- Modelled from the spec: the WRITE request/delivery bit (§6.1). -/
def ULOOP_WRITE : Nat := 2

/-- Modelled from the spec: the EDGE_TRIGGER request bit (§6.1). -/
def ULOOP_EDGE_TRIGGER : Nat := 4

/-- Modelled from the spec: the mask of deliverable events, `READ | WRITE`. -/
def ULOOP_EVENT_MASK : Nat := ULOOP_READ ||| ULOOP_WRITE

/-- Modelled from the spec: the internal "event buffered" bit used by the
edge-trigger reentrancy guard (§4.1, §6.1); not part of `ULOOP_EVENT_MASK`. -/
def ULOOP_EVENT_BUFFERED : Nat := 16

/-! ### fd dispatch and the edge-trigger recursion stack (uloop.c:43-72, 166-290) -/

/-- Fields of `struct uloop_fd` used by the dispatch core: the request `flags`,
the `registered` flag, and whether a callback is set (`fd->cb != NULL`). -/
structure FdObj where
  flags : Nat
  registered : Bool
  has_cb : Bool
deriving Repr, DecidableEq

/-- One entry of the `cur_fds` batch buffer (`struct uloop_fd_event`): the
watcher pointer (`none` once nulled by `uloop_fd_delete`) and the fetched event
bits. -/
structure FdEntry where
  fd : Option Nat
  events : Nat
deriving Repr, DecidableEq

/-- One frame of the edge-trigger recursion stack (`struct uloop_fd_stack`):
the dispatched watcher (`none` once `uloop_fd_delete` marked it gone) and the
accumulated event bits. The `next` links are the order of the frame list. -/
structure FrameSt where
  fd : Option Nat
  events : Nat
deriving Repr, DecidableEq

/-- The stack scan of `uloop_fd_stack_event` (uloop.c:177-187): find the first
frame for `fd`; with `events < 0` (a delete marker) null the frame's watcher,
otherwise OR `events | ULOOP_EVENT_BUFFERED` into the frame; return `true` when
a frame was found. -/
def fdStackScan (fd : Nat) (events : Int) : List FrameSt → List FrameSt × Bool
  | [] => ([], false)
  | cur :: rest =>
    if cur.fd = some fd then
      if events < 0 then ({ cur with fd := none } :: rest, true)
      else ({ cur with events := cur.events ||| (events.toNat ||| ULOOP_EVENT_BUFFERED) } :: rest,
            true)
    else
      let r := fdStackScan fd events rest
      (cur :: r.1, r.2)

/-- Embedding of `uloop_fd_stack_event` (uloop.c:166): level-triggered fds are
never buffered (`false` without touching the stack); edge-triggered fds are
looked up in the frame stack. -/
def uloop_fd_stack_event (fds : Nat → FdObj) (stack : List FrameSt) (fd : Nat) (events : Int) :
    List FrameSt × Bool :=
  if (fds fd).flags &&& ULOOP_EDGE_TRIGGER = 0 then (stack, false)
  else fdStackScan fd events stack

/-- Summary of one callback invocation's effect on its own stack frame, used to
abstract the opaque callback body: `buffered` is the value of
`stack_cur.events` when the callback returns (accumulated there by
`uloop_fd_stack_event` folds from nested `uloop_run_events` calls), and
`deleted` records whether the callback called `uloop_fd_delete` on its own fd
(which nulls `stack_cur.fd` via the `events < 0` marker). -/
structure CbOut where
  buffered : Nat
  deleted : Bool
deriving Repr, DecidableEq

/-- The dispatch do-while loop of `uloop_run_events` (uloop.c:225-229): invoke
the callback with the current events, then recompute
`events = stack_cur.events & ULOOP_EVENT_MASK` and loop while
`stack_cur.fd && events`. The oracle list `outs` gives each successive
invocation's `CbOut` (an exhausted oracle means the callback did nothing, so
the frame keeps `events = 0` and the loop exits). Returns the event words
passed to the successive invocations, in order. -/
def cbInvocations (outs : List CbOut) (events : Nat) : List Nat :=
  match outs with
  | [] => [events]
  | o :: rest =>
    events ::
      (if o.deleted ∨ o.buffered &&& ULOOP_EVENT_MASK = 0 then []
       else cbInvocations rest (o.buffered &&& ULOOP_EVENT_MASK))

/-- Dispatch-core state threaded through `uloop_run_events`: the fd heap, the
pending tail of the `cur_fds` batch (entries `cur_fd .. cur_fd+cur_nfds-1`),
the frame stack, the log of timeouts passed to `uloop_fetch_events`, and the
log of dispatched entries (fd, events word of each callback invocation). -/
structure EvSt where
  fds : Nat → FdObj
  batch : List FdEntry
  fd_stack : List FrameSt
  fetchLog : List Int
  dispatchLog : List (Nat × List Nat)

/-- Backend and callback oracle for `uloop_run_events`: the batch a
`uloop_fetch_events` call produces (an empty list covers the `cur_nfds < 0`
error path, which the code clamps to 0), and each fd's callback behaviour. -/
structure EvOracle where
  fetched : List FdEntry
  outs : Nat → List CbOut

/-- The consume loop of `uloop_run_events` (uloop.c:204-233): pop batch
entries, skipping nulled watchers, watchers without callback, and edge-fold
hits (`uloop_fd_stack_event` returning true, which may update a frame); the
first dispatchable entry gets a fresh frame pushed, its callback do-while loop,
the frame popped, and the function returns. Callback effects on state outside
the frame are oracle-abstracted. -/
def runEventsGo (o : EvOracle) (flog : List Int) (fds : Nat → FdObj) (stack : List FrameSt)
    (dlog : List (Nat × List Nat)) : List FdEntry → EvSt
  | [] => { fds := fds, batch := [], fd_stack := stack, fetchLog := flog,
            dispatchLog := dlog }
  | e :: rest =>
    match e.fd with
    | none => runEventsGo o flog fds stack dlog rest
    | some fd =>
      if !(fds fd).has_cb then runEventsGo o flog fds stack dlog rest
      else
        let r := uloop_fd_stack_event fds stack fd (Int.ofNat e.events)
        if r.2 then runEventsGo o flog fds r.1 dlog rest
        else
          { fds := fds, batch := rest, fd_stack := stack, fetchLog := flog,
            dispatchLog := dlog ++ [(fd, cbInvocations (o.outs fd) e.events)] }

/-- The consume loop applied to a dispatch-core state. -/
def runEventsLoop (o : EvOracle) (s : EvSt) : EvSt :=
  runEventsGo o s.fetchLog s.fds s.fd_stack s.dispatchLog s.batch

/-- Embedding of `uloop_run_events` (uloop.c:192): when the batch cursor is
drained (`cur_nfds == 0`), call `uloop_fetch_events(timeout)` (logged) to
refill it; then dispatch at most one entry via the consume loop. -/
def uloop_run_events (o : EvOracle) (timeout : Int) (s : EvSt) : EvSt :=
  let s1 :=
    if s.batch.isEmpty then
      { s with batch := o.fetched, fetchLog := s.fetchLog ++ [timeout] }
    else s
  runEventsLoop o s1

/-- The batch scan of `uloop_fd_delete` (uloop.c:271-276): null every pending
`cur_fds` entry whose watcher is this fd, so later dispatch skips them. -/
def batchNulled (s : EvSt) (fd : Nat) : EvSt :=
  { s with batch := s.batch.map (fun e => if e.fd = some fd then { e with fd := none } else e) }

/-- Embedding of `uloop_fd_delete` (uloop.c:266): null every pending batch
entry for this fd; if the watcher is not `registered`, return 0 with no further
effect; otherwise clear `registered`, mark any stack frame for the fd gone
(`uloop_fd_stack_event(fd, -1)`), unregister with the backend (its status is
the parameter `backendRet`, the function's return value), and zero `flags`.
The optional global `uloop_fd_set_cb` observer is an external collaborator and
is not modelled. -/
def uloop_fd_delete (s : EvSt) (backendRet : Int) (fd : Nat) : Int × EvSt :=
  let s1 := batchNulled s fd
  if !(s1.fds fd).registered then (0, s1)
  else
    let fds1 := fun j => if j = fd then { s1.fds j with registered := false } else s1.fds j
    let stack' := (uloop_fd_stack_event fds1 s1.fd_stack fd (-1)).1
    let fds2 := fun j => if j = fd then { fds1 j with flags := 0 } else fds1 j
    (backendRet, { s1 with fds := fds2, fd_stack := stack' })

/-! ### One iteration of the run loop (uloop.c:656-672) for claim C1 -/

/-- State seen by one iteration of the `uloop_run_timeout` main loop, reduced
to what the iteration's control flow reads: the timer queue, the dispatch-core
state and the `uloop_cancelled` flag. -/
structure IterSt where
  ts : TState
  ev : EvSt
  cancelled : Bool

/-- Embedding of one iteration of the `do { ... }` body of `uloop_run_timeout`
(uloop.c:660-671), after the `do_sigchld` reap: break on `uloop_cancelled`;
sample `now`; `next_time = uloop_process_timeouts(&tv)`; break on
`uloop_cancelled`; call `uloop_run_events(next_time)` only when
`next_time >= 0`. Timer callbacks fired by this pass are recorded by the timer
model but their bodies are not modelled. -/
def uloop_iteration (o : EvOracle) (now : Timeval) (s : IterSt) : IterSt :=
  if s.cancelled then s
  else
    let r := uloop_process_timeouts s.ts now
    let next_time := r.2.2
    let s1 := { s with ts := r.1 }
    if s1.cancelled then s1
    else if next_time ≥ 0 then { s1 with ev := uloop_run_events o next_time s1.ev }
    else s1

/-! ### The full run loop (uloop.c:636-678) for claim C10 -/

/-- Global loop state threaded through `uloop_run_timeout`: the timer queue and
the `uloop_cancelled`, `global_current_uloop_timeout_reached`, `uloop_status`,
`uloop_run_depth` and `do_sigchld` globals. fd and process state only matter to
C10 through the oracle-abstracted callback effects. -/
structure RunSt where
  ts : TState
  cancelled : Bool
  reached : Bool
  status : Int
  depth : Int
  do_sigchld : Bool

/-- Environment oracle for a `uloop_run_timeout` call: `regNow` is the
`uloop_gettime` sample inside the sentinel's `uloop_timeout_set`; per iteration
`i`, `reapEff i` is the effect of `uloop_handle_processes` (including process
callbacks), `now i` is the iteration's `uloop_gettime` sample, `timerCb i t` is
the effect of firing user timeout `t`'s callback, and `evEff i` is the effect
of `uloop_run_events` (including fd callbacks). -/
structure RunOracle where
  regNow : Timeval
  reapEff : Nat → RunSt → RunSt
  now : Nat → Timeval
  timerCb : Nat → Nat → RunSt → RunSt
  evEff : Nat → RunSt → RunSt

/-- The `uloop_process_timeouts` pass inside iteration `i` of the run loop,
with callback effects: fire list heads while their `tv_diff` to `now` is ≤ 0,
unlinking each (via `uloop_timeout_cancel`) before its callback. The sentinel
id `sent` runs `handle_global_timeout` (uloop.c:636), which sets the reached
flag; other ids run the oracle callback. `fuel` bounds the walk (user
callbacks may relink timeouts, so the C loop is not structurally recursive);
exhausted fuel stops firing with `next_time = 0`. Returns the state, the
`next_time` result and whether the sentinel fired during the pass. -/
def fireTimersGo (o : RunOracle) (i : Nat) (sent : Nat) (now : Timeval) :
    Nat → RunSt → RunSt × Int × Bool
  | 0, s => (s, 0, false)
  | fuel + 1, s =>
    match s.ts.tlist with
    | [] => (s, -1, false)
    | t :: _ =>
      let res := tv_diff ((s.ts.objs t).time) now
      if res > 0 then (s, res, false)
      else
        let s1 : RunSt := { s with ts := (uloop_timeout_cancel s.ts t).2 }
        if t = sent then
          let s2 := { s1 with reached := true }
          let r := fireTimersGo o i sent now fuel s2
          (r.1, r.2.1, true)
        else
          let s2 := o.timerCb i t s1
          fireTimersGo o i sent now fuel s2

/-- The `do { ... } while (...)` of `uloop_run_timeout` (uloop.c:656-672):
reap when `do_sigchld` (clearing the flag first, as `uloop_handle_processes`
does); break on `uloop_cancelled`; fire timeouts at the sampled time; break on
`uloop_cancelled`; run events when `next_time >= 0`; repeat while neither
cancelled nor the sentinel flag is set. Returns the exit state and whether the
sentinel fired at any iteration. `fuel` bounds the number of iterations. -/
def runLoopGo (o : RunOracle) (sent : Nat) (ffuel : Nat) :
    Nat → Nat → RunSt → RunSt × Bool
  | 0, _, s => (s, false)
  | fuel + 1, i, s =>
    let s1 := if s.do_sigchld then o.reapEff i { s with do_sigchld := false } else s
    if s1.cancelled then (s1, false)
    else
      let fr := fireTimersGo o i sent (o.now i) ffuel s1
      let s2 := fr.1
      let next_time := fr.2.1
      let fired := fr.2.2
      if s2.cancelled then (s2, fired)
      else
        let s3 := if next_time ≥ 0 then o.evEff i s2 else s2
        if s3.cancelled ∨ s3.reached then (s3, fired)
        else
          let r := runLoopGo o sent ffuel fuel (i + 1) s3
          (r.1, fired || r.2)

/-- Embedding of `uloop_run_timeout` (uloop.c:640): bump the depth, register
the stack-local sentinel `uloop_global_timer` (id `sent`) via
`uloop_timeout_set` when `timeout >= 0`, clear `uloop_status` and the reached
flag, run the loop, then reset the reached flag for the outer level and drop
the depth. Nothing on the exit path cancels the sentinel. Returns the final
state, the returned `uloop_status`, and whether the sentinel fired. -/
def uloop_run_timeout (o : RunOracle) (sent : Nat) (ffuel fuel : Nat) (timeout : Int)
    (s0 : RunSt) : RunSt × Int × Bool :=
  let s1 := { s0 with depth := s0.depth + 1 }
  let s2 :=
    if timeout ≥ 0 then { s1 with ts := (uloop_timeout_set s1.ts sent timeout o.regNow).2 }
    else s1
  let s3 := { s2 with status := 0, reached := false }
  let r := runLoopGo o sent ffuel fuel 0 s3
  let s4 := { r.1 with reached := false, depth := r.1.depth - 1 }
  (s4, s4.status, r.2)

/-- The sentinel property of claim C10: the sentinel timeout is pending and
linked in the global timeout list. -/
def SentLive (sent : Nat) (s : RunSt) : Prop :=
  (s.ts.objs sent).pending = true ∧ sent ∈ s.ts.tlist

/-! ### Concrete scenario states used by counterexamples and witnesses -/

/-- A dispatch-core state with nothing registered and empty logs. -/
def emptyEvSt : EvSt :=
  { fds := fun _ => { flags := 0, registered := false, has_cb := false },
    batch := [], fd_stack := [], fetchLog := [], dispatchLog := [] }

/-- A backend oracle that fetches nothing and whose callbacks do nothing. -/
def emptyEvOracle : EvOracle :=
  { fetched := [], outs := fun _ => [] }

/-- A dispatch-core state in which only fd 5 is registered (level-triggered,
READ). -/
def regOneEvSt : EvSt :=
  { fds := fun j =>
      if j = 5 then { flags := ULOOP_READ, registered := true, has_cb := true }
      else { flags := 0, registered := false, has_cb := false },
    batch := [], fd_stack := [], fetchLog := [], dispatchLog := [] }

/-- Iteration state with no pending timeout, a drained batch and the loop not
cancelled. -/
def iterNoTimeout : IterSt :=
  { ts := initTState, ev := emptyEvSt, cancelled := false }

/-- One pending timeout, id 0, with deadline 900 microseconds after the epoch. -/
def tState900us : TState :=
  { objs := fun j =>
      if j = 0 then { time := { tv_sec := 0, tv_usec := 900 }, pending := true }
      else { time := { tv_sec := 0, tv_usec := 0 }, pending := false },
    tlist := [0] }

/-- Signal scenario, step 0: signal 5 is at a third-party disposition
`custom 0`; watcher 0 (for signal 5) is not yet registered. -/
def sigScene0 : SState :=
  { sigs := fun _ => { signo := 5, pending := false, orig := Handler.dfl },
    slist := [],
    installed := fun _ => Handler.custom 0 }

/-- Signal scenario, step 1: after `uloop_signal_add` of watcher 0. -/
def sigScene1 : SState := (uloop_signal_add sigScene0 0).2

/-- Signal scenario, step 2: a third party then installs its own handler
`custom 1` for signal 5. -/
def sigScene2 : SState := thirdPartyInstall sigScene1 5 (Handler.custom 1)

/-- Signal scenario, step 3: after `uloop_signal_delete` of watcher 0. -/
def sigScene3 : SState := (uloop_signal_delete sigScene2 0).2

/-- A timer state with watcher 0 pending, used for conflict witnesses. -/
def tStateW : TState :=
  { objs := fun j =>
      if j = 0 then { time := { tv_sec := 0, tv_usec := 0 }, pending := true }
      else { time := { tv_sec := 0, tv_usec := 0 }, pending := false },
    tlist := [0] }

/-- A process state with watcher 0 pending (pid 9), used for conflict
witnesses. -/
def pStateW : PState :=
  { procs := fun j =>
      if j = 0 then { pid := 9, pending := true } else { pid := 9, pending := false },
    plist := [0] }

/-- A signal state with watcher 0 pending (signo 10), used for conflict
witnesses. -/
def sStateW : SState :=
  { sigs := fun j =>
      if j = 0 then { signo := 10, pending := true, orig := Handler.dfl }
      else { signo := 10, pending := false, orig := Handler.dfl },
    slist := [0],
    installed := fun _ => Handler.dfl }

/-- Reaper scenario: watchers 0 and 1 target pid 5 (registered in that order),
watcher 2 targets pid 7; all pending. -/
def pStateReap : PState :=
  { procs := fun j =>
      if j = 2 then { pid := 7, pending := true } else { pid := 5, pending := true },
    plist := [0, 1, 2] }

/-- An fd heap in which only fd 5 is registered: edge-triggered, READ, with a
callback. -/
def edgeFds : Nat → FdObj := fun j =>
  if j = 5 then
    { flags := ULOOP_READ ||| ULOOP_EDGE_TRIGGER, registered := true, has_cb := true }
  else { flags := 0, registered := false, has_cb := false }

/-- A dispatch-stack frame for fd 5 with no accumulated events. -/
def frame5 : FrameSt := { fd := some 5, events := 0 }

/-- A dispatch-core state in the middle of dispatching fd 5: its frame is on
the stack. -/
def edgeEvSt : EvSt :=
  { fds := edgeFds, batch := [], fd_stack := [frame5], fetchLog := [], dispatchLog := [] }

/-- One pending timeout, id 0, with deadline 2 ms after the epoch. -/
def tStateFuture : TState :=
  { objs := fun j =>
      if j = 0 then { time := { tv_sec := 0, tv_usec := 2000 }, pending := true }
      else { time := { tv_sec := 0, tv_usec := 0 }, pending := false },
    tlist := [0] }

/-- Iteration state with one pending future timeout, a drained batch, and the
loop not cancelled. -/
def iterFuture : IterSt :=
  { ts := tStateFuture, ev := emptyEvSt, cancelled := false }

/-- Run-loop oracle whose environment effects are all identities and whose
clock reads zero. -/
def idRunOracle : RunOracle :=
  { regNow := { tv_sec := 0, tv_usec := 0 },
    reapEff := fun _ s => s,
    now := fun _ => { tv_sec := 0, tv_usec := 0 },
    timerCb := fun _ _ s => s,
    evEff := fun _ s => s }

/-- A run-loop state that is already cancelled when `uloop_run_timeout`
starts (as after a SIGINT), with no other timeouts registered. -/
def cancelledRunSt : RunSt :=
  { ts := initTState, cancelled := true, reached := false, status := 2,
    depth := 0, do_sigchld := false }

/-! ## Arithmetic facts about C truncating division and tv_diff -/

/-- Characterization of C's truncating division by 1000: on nonnegative
operands it rounds down, on negative operands it rounds up. -/
theorem tdivChar (x : Int) :
    (0 ≤ x → 1000 * Int.tdiv x 1000 ≤ x ∧ x < 1000 * Int.tdiv x 1000 + 1000) ∧
    (x < 0 → x ≤ 1000 * Int.tdiv x 1000 ∧ 1000 * Int.tdiv x 1000 < x + 1000) := by
  constructor
  · intro h
    rw [Int.tdiv_eq_ediv h (by norm_num)]
    omega
  · intro h
    have h2 : (0 : Int) ≤ -x := by omega
    have hneg : (-x).tdiv 1000 = -(x.tdiv 1000) := Int.neg_tdiv x 1000
    have he : (-x).tdiv 1000 = (-x) / 1000 := Int.tdiv_eq_ediv h2 (by norm_num)
    omega

/-- The millisecond comparison is antisymmetric: truncation toward zero is an
odd function, so `tv_diff(a, b) = -tv_diff(b, a)` exactly. -/
theorem tv_diff_neg (a b : Timeval) : tv_diff a b = -tv_diff b a := by
  unfold tv_diff
  have h : a.tv_usec - b.tv_usec = -(b.tv_usec - a.tv_usec) := by ring
  rw [h, Int.neg_tdiv]
  ring

/-- Quasi-transitivity of the millisecond comparison on normalized timevals:
if `y` is strictly tv_diff-later than `t` and not tv_diff-later than `z`, then
`t` is not tv_diff-later than `z`. This is what makes the insertion walk keep
the list pairwise ordered. -/
theorem tv_diff_quasi_trans {y t z : Timeval}
    (hy : Normalized y) (ht : Normalized t) (hz : Normalized z)
    (h1 : 0 < tv_diff y t) (h2 : tv_diff y z ≤ 0) : tv_diff t z ≤ 0 := by
  obtain ⟨hy1, hy2⟩ := hy
  obtain ⟨ht1, ht2⟩ := ht
  obtain ⟨hz1, hz2⟩ := hz
  unfold tv_diff at h1 h2 ⊢
  have c1 := tdivChar (y.tv_usec - t.tv_usec)
  have c2 := tdivChar (y.tv_usec - z.tv_usec)
  have c3 := tdivChar (t.tv_usec - z.tv_usec)
  omega

/-! ## C8: state conflicts return -1 with no side effect -/

/-- C8: for timeout, process and signal watchers alike, adding a watcher whose
`pending` flag is already set, or cancelling/deleting one whose `pending` flag
is clear, returns −1 and returns the state unchanged (the watcher heap and
every loop list are exactly as before). -/
theorem state_conflicts_no_side_effect
    (ts : TState) (ps : PState) (ss : SState) (i j k l m n : Nat)
    (h1 : (ts.objs i).pending = true) (h2 : (ts.objs j).pending = false)
    (h3 : (ps.procs k).pending = true) (h4 : (ps.procs l).pending = false)
    (h5 : (ss.sigs m).pending = true) (h6 : (ss.sigs n).pending = false) :
    uloop_timeout_add ts i = (-1, ts) ∧ uloop_timeout_cancel ts j = (-1, ts) ∧
    uloop_process_add ps k = (-1, ps) ∧ uloop_process_delete ps l = (-1, ps) ∧
    uloop_signal_add ss m = (-1, ss) ∧ uloop_signal_delete ss n = (-1, ss) := by
  refine ⟨?_, ?_, ?_, ?_, ?_, ?_⟩ <;>
    simp [uloop_timeout_add, uloop_timeout_cancel, uloop_process_add,
      uloop_process_delete, uloop_signal_add, uloop_signal_delete, h1, h2, h3, h4, h5, h6]

/-- Witness for C8 at concrete conflicting states. -/
theorem state_conflicts_no_side_effect_witness :
    ((tStateW.objs 0).pending = true ∧ (tStateW.objs 1).pending = false ∧
     (pStateW.procs 0).pending = true ∧ (pStateW.procs 1).pending = false ∧
     (sStateW.sigs 0).pending = true ∧ (sStateW.sigs 1).pending = false) ∧
    (uloop_timeout_add tStateW 0 = (-1, tStateW) ∧
     uloop_timeout_cancel tStateW 1 = (-1, tStateW) ∧
     uloop_process_add pStateW 0 = (-1, pStateW) ∧
     uloop_process_delete pStateW 1 = (-1, pStateW) ∧
     uloop_signal_add sStateW 0 = (-1, sStateW) ∧
     uloop_signal_delete sStateW 1 = (-1, sStateW)) :=
  ⟨⟨rfl, rfl, rfl, rfl, rfl, rfl⟩,
   state_conflicts_no_side_effect tStateW pStateW sStateW 0 1 0 1 0 1
     rfl rfl rfl rfl rfl rfl⟩

/-! ## C2: the 64-bit signal bitset is truncated by a 32-bit shift -/

/-- C2 (code bug): draining the byte 33 from the self-pipe records bit 0 of
the "signals seen" bitset, not bit 32 — `set_signo` shifts the 32-bit literal
`1u`, so no defined evaluation can reach bits 32..63 of the `uint64_t` bitset.
Consequently the delivery walk then invokes the watcher registered for signal
1 as well as (by the same aliasing in `get_signo`) the one for signal 33,
where the specified 64-bit bitset would record and deliver signal 33 alone. -/
theorem signal_bitset_truncated_at_33 :
    drain_signums [33] = 1 ∧
    Nat.testBit (drain_signums [33]) 32 = false ∧
    Nat.testBit (drain_signums [33]) 0 = true ∧
    signal_consume_invoked (drain_signums [33]) [1, 33] = [1, 33] ∧
    set_signo 0 33 = set_signo 0 1 := by
  decide

/-! ## C3: which handler uloop_signal_delete restores, and when -/

/-- C3 (counterexample): the guard in `uloop_signal_delete` tests the saved
`orig` handler, not the currently-installed one. Watcher 0 registers for
signal 5 while a third-party handler `custom 0` is installed; another third
party then installs `custom 1`; the claim says deletion must not overwrite it
(the current handler is not the bridge), but the code writes the saved
`custom 0` back, stomping `custom 1`. -/
theorem signal_delete_stomps_third_party :
    sigScene2.installed 5 = Handler.custom 1 ∧
    sigScene2.installed 5 ≠ Handler.wake ∧
    sigScene3.installed 5 = Handler.custom 0 ∧
    sigScene3.installed 5 ≠ Handler.custom 1 := by
  decide

/-- C3 (amended): `uloop_signal_delete` on a pending watcher unlinks it,
clears `pending`, and restores the saved prior sigaction if and only if the
saved prior handler is not the bridge handler; consequently register followed
by deregister with no third-party modification in between restores the
original disposition exactly. -/
theorem signal_delete_restores_saved_handler :
    (∀ s id, (s.sigs id).pending = true →
      (uloop_signal_delete s id).1 = 0 ∧
      ((uloop_signal_delete s id).2.sigs id).pending = false ∧
      (uloop_signal_delete s id).2.slist = s.slist.erase id ∧
      (∀ n, (uloop_signal_delete s id).2.installed n =
        if (s.sigs id).orig ≠ Handler.wake ∧ n = (s.sigs id).signo then (s.sigs id).orig
        else s.installed n)) ∧
    (∀ s id, (s.sigs id).pending = false →
      ∀ n, (uloop_signal_delete (uloop_signal_add s id).2 id).2.installed n =
        s.installed n) := by
  constructor
  · intro s id h
    refine ⟨?_, ?_, ?_, ?_⟩
    · simp [uloop_signal_delete, h]
    · simp [uloop_signal_delete, h]
    · simp [uloop_signal_delete, h]
    · intro n
      by_cases ho : (s.sigs id).orig = Handler.wake
      · simp [uloop_signal_delete, h, ho]
      · by_cases hn : n = (s.sigs id).signo
        · simp [uloop_signal_delete, h, ho, hn]
        · simp [uloop_signal_delete, h, ho, hn]
  · intro s id h n
    by_cases ho : s.installed (s.sigs id).signo = Handler.wake
    · by_cases hn : n = (s.sigs id).signo
      · simp [uloop_signal_add, uloop_signal_delete, h, ho, hn]
      · simp [uloop_signal_add, uloop_signal_delete, h, ho, hn]
    · by_cases hn : n = (s.sigs id).signo
      · simp [uloop_signal_add, uloop_signal_delete, h, ho, hn]
      · simp [uloop_signal_add, uloop_signal_delete, h, ho, hn]

/-- Witness for the amended C3 at a concrete state: deleting the pending
watcher of `sStateW` unlinks it and restores its saved `SIG_DFL`. -/
theorem signal_delete_restores_saved_handler_witness :
    (sStateW.sigs 0).pending = true ∧
    ((uloop_signal_delete sStateW 0).1 = 0 ∧
     ((uloop_signal_delete sStateW 0).2.sigs 0).pending = false ∧
     (uloop_signal_delete sStateW 0).2.slist = sStateW.slist.erase 0 ∧
     (∀ n, (uloop_signal_delete sStateW 0).2.installed n =
       if (sStateW.sigs 0).orig ≠ Handler.wake ∧ n = (sStateW.sigs 0).signo then
         (sStateW.sigs 0).orig
       else sStateW.installed n)) :=
  ⟨rfl, signal_delete_restores_saved_handler.1 sStateW 0 rfl⟩

/-! ## C7: uloop_fd_delete return value -/

/-- C7 (counterexample): deleting a watcher that is not registered returns 0,
not −1 (the early `if (!fd->registered) return 0;` at uloop.c:278). -/
theorem fd_delete_unregistered_returns_zero :
    (uloop_fd_delete emptyEvSt (-7) 5).1 = 0 ∧
    (uloop_fd_delete emptyEvSt (-7) 5).1 ≠ -1 := by
  decide

/-- C7 (amended): `uloop_fd_delete` returns 0 when the watcher is not
registered — a no-op apart from nulling the watcher's pending batch entries —
and returns the backend's unregister status when it is registered. -/
theorem fd_delete_return_contract (s : EvSt) (backendRet : Int) (fd : Nat) :
    ((s.fds fd).registered = false →
      (uloop_fd_delete s backendRet fd).1 = 0 ∧
      (uloop_fd_delete s backendRet fd).2 = batchNulled s fd) ∧
    ((s.fds fd).registered = true →
      (uloop_fd_delete s backendRet fd).1 = backendRet) := by
  constructor
  · intro h
    constructor
    · simp [uloop_fd_delete, batchNulled, h]
    · simp [uloop_fd_delete, batchNulled, h]
  · intro h
    simp [uloop_fd_delete, batchNulled, h]

/-- Witness for the amended C7 on a concrete unregistered and a concrete
registered watcher. -/
theorem fd_delete_return_contract_witness :
    ((emptyEvSt.fds 5).registered = false ∧
      ((uloop_fd_delete emptyEvSt (-7) 5).1 = 0 ∧
       (uloop_fd_delete emptyEvSt (-7) 5).2 = batchNulled emptyEvSt 5)) ∧
    (((regOneEvSt.fds 5).registered = true) ∧
      (uloop_fd_delete regOneEvSt (-7) 5).1 = -7) :=
  ⟨⟨rfl, (fd_delete_return_contract emptyEvSt (-7) 5).1 rfl⟩,
   ⟨rfl, (fd_delete_return_contract regOneEvSt (-7) 5).2 rfl⟩⟩

/-! ## Timer-queue list lemmas -/

/-- Membership in the insertion result. -/
theorem timeoutInsert_mem (objs : Nat → TimerObj) (t : Timeval) (id y : Nat) (l : List Nat) :
    y ∈ timeoutInsert objs t id l ↔ y = id ∨ y ∈ l := by
  induction l with
  | nil => simp [timeoutInsert]
  | cons x xs ih =>
    simp only [timeoutInsert]
    split
    · simp only [List.mem_cons]
    · simp only [List.mem_cons, ih]
      tauto

/-- The insertion walk places the new timeout directly after the maximal
initial run of entries that are not strictly tv_diff-later — i.e. stably after
every earlier-or-equal entry. -/
theorem timeoutInsert_eq (objs : Nat → TimerObj) (t : Timeval) (id : Nat) (l : List Nat) :
    timeoutInsert objs t id l =
      l.takeWhile (fun x => !decide (tv_diff (objs x).time t > 0)) ++
      id :: l.dropWhile (fun x => !decide (tv_diff (objs x).time t > 0)) := by
  induction l with
  | nil => simp [timeoutInsert]
  | cons x xs ih =>
    simp only [timeoutInsert, List.takeWhile, List.dropWhile]
    by_cases h : tv_diff (objs x).time t > 0
    · simp [h]
    · simp [h, ih]

/-- Insertion of an unlinked id preserves `Nodup`. -/
theorem timeoutInsert_nodup (objs : Nat → TimerObj) (t : Timeval) (id : Nat) (l : List Nat)
    (h : l.Nodup) (hid : id ∉ l) : (timeoutInsert objs t id l).Nodup := by
  induction l with
  | nil => simp [timeoutInsert]
  | cons x xs ih =>
    rcases List.nodup_cons.mp h with ⟨hx, hxs⟩
    have hid' : id ∉ xs := fun hh => hid (List.mem_cons_of_mem _ hh)
    have hxid : x ≠ id := fun hh => hid (hh ▸ List.mem_cons_self _ _)
    simp only [timeoutInsert]
    split
    · exact List.nodup_cons.mpr ⟨hid, h⟩
    · refine List.nodup_cons.mpr ⟨?_, ih hxs hid'⟩
      intro hm
      rcases (timeoutInsert_mem objs t id x xs).mp hm with h1 | h1
      · exact hxid h1
      · exact hx h1

/-- Insertion preserves the pairwise tv_diff order, provided all deadlines in
sight are normalized. This is where the antisymmetry and quasi-transitivity of
the truncated-millisecond comparison are needed. -/
theorem timeoutInsert_pairwise (objs : Nat → TimerObj) (t : Timeval) (id : Nat) (l : List Nat)
    (hobj : (objs id).time = t) (hnt : Normalized t)
    (hnorm : ∀ x ∈ l, Normalized (objs x).time)
    (hpw : l.Pairwise (fun a b => tv_diff (objs a).time (objs b).time ≤ 0)) :
    (timeoutInsert objs t id l).Pairwise
      (fun a b => tv_diff (objs a).time (objs b).time ≤ 0) := by
  induction l with
  | nil => simp [timeoutInsert]
  | cons x xs ih =>
    rcases List.pairwise_cons.mp hpw with ⟨hx, hxs⟩
    simp only [timeoutInsert]
    split
    · rename_i hgt
      refine List.pairwise_cons.mpr ⟨?_, hpw⟩
      intro y hy
      rw [hobj]
      rcases List.mem_cons.mp hy with rfl | hy'
      · have hanti := tv_diff_neg (objs y).time t
        omega
      · exact tv_diff_quasi_trans (hnorm x (List.mem_cons_self _ _)) hnt
          (hnorm y (List.mem_cons_of_mem _ hy')) hgt (hx y hy')
    · rename_i hle
      refine List.pairwise_cons.mpr ⟨?_, ?_⟩
      · intro y hy
        rcases (timeoutInsert_mem objs t id y xs).mp hy with rfl | hy'
        · rw [hobj]
          omega
        · exact hx y hy'
      · exact ih (fun z hz => hnorm z (List.mem_cons_of_mem _ hz)) hxs

/-- The deadline computed by `uloop_timeout_set` from a nonnegative
millisecond count and a normalized clock sample is normalized. -/
theorem setDeadline_normalized (msecs : Int) (now : Timeval) (h : 0 ≤ msecs)
    (hn : Normalized now) : Normalized (setDeadline msecs now) := by
  obtain ⟨h1, h2⟩ := hn
  have hm := Int.tmod_def msecs 1000
  have hc := tdivChar msecs
  by_cases hgt : now.tv_usec + Int.tmod msecs 1000 * 1000 > 1000000
  · simp only [setDeadline, Normalized, hgt, if_true]
    constructor <;> omega
  · simp only [setDeadline, Normalized, hgt, if_false]
    constructor <;> omega

/-- `writeTime` only changes the stored deadline of the written id. -/
theorem writeTime_objs (s : TState) (id : Nat) (t : Timeval) (j : Nat) :
    ((writeTime s id t).objs j).pending = (s.objs j).pending ∧
    (j ≠ id → (writeTime s id t).objs j = s.objs j) ∧
    ((writeTime s id t).objs id).time = t ∧
    (writeTime s id t).tlist = s.tlist := by
  unfold writeTime
  refine ⟨?_, ?_, by simp, rfl⟩
  · by_cases hj : j = id <;> simp [hj]
  · intro hj; simp [hj]

/-- The firing walk is takeWhile / dropWhile of the firing predicate, and the
returned value is −1 on a drained list, else the head's tv_diff. -/
theorem processTimeoutsList_eq (objs : Nat → TimerObj) (now : Timeval) (l : List Nat) :
    processTimeoutsList objs now l =
      (l.takeWhile (firesNow objs now),
       l.dropWhile (firesNow objs now),
       match l.dropWhile (firesNow objs now) with
       | [] => -1
       | x :: _ => tv_diff (objs x).time now) := by
  induction l with
  | nil => simp [processTimeoutsList]
  | cons x xs ih =>
    simp only [processTimeoutsList, List.takeWhile, List.dropWhile]
    by_cases hx : tv_diff (objs x).time now > 0
    · have hf : firesNow objs now x = false := by
        simp [firesNow]; omega
      simp [hx, hf]
    · have hf : firesNow objs now x = true := by
        simp [firesNow]; omega
      simp [hx, hf, ih]

/-- The head of a dropWhile result falsifies the predicate. -/
theorem dropWhile_head_false {p : Nat → Bool} {l : List Nat} {x : Nat} {rest : List Nat}
    (h : l.dropWhile p = x :: rest) : p x = false := by
  induction l with
  | nil => simp at h
  | cons a as ih =>
    by_cases hp : p a
    · simp [List.dropWhile, hp] at h
      exact ih h
    · simp [List.dropWhile, hp] at h
      rcases h with ⟨rfl, _⟩
      simpa using hp

/-! ## Timer-queue invariant preservation -/

/-- Writing a deadline into an unlinked timeout preserves the invariant. -/
theorem TInv_writeTime (s : TState) (id : Nat) (t : Timeval) (hinv : TInv s)
    (hid : id ∉ s.tlist) : TInv (writeTime s id t) := by
  obtain ⟨hnd, hsort, hiff, hnorm⟩ := hinv
  have hne : ∀ j ∈ s.tlist, (writeTime s id t).objs j = s.objs j := by
    intro j hj
    refine (writeTime_objs s id t j).2.1 ?_
    rintro rfl
    exact hid hj
  refine ⟨hnd, ?_, ?_, ?_⟩
  · exact hsort.imp_of_mem (fun ha hb hab => by rw [hne _ ha, hne _ hb]; exact hab)
  · intro j
    rw [(writeTime_objs s id t j).1]
    exact hiff j
  · intro x hx
    rw [hne x hx]
    exact hnorm x hx

/-- Linking a non-pending timeout with a normalized deadline preserves the
invariant (the else branch of `uloop_timeout_add`). -/
theorem TInv_insertStep (w : TState) (id : Nat) (hinv : TInv w)
    (hv : Normalized (w.objs id).time) (hp : (w.objs id).pending = false) :
    TInv { objs := fun j => if j = id then { w.objs j with pending := true } else w.objs j,
           tlist := timeoutInsert w.objs (w.objs id).time id w.tlist } := by
  obtain ⟨hnd, hsort, hiff, hnorm⟩ := hinv
  have hid : id ∉ w.tlist := fun hm => by
    have h2 := (hiff id).mpr hm
    rw [hp] at h2
    cases h2
  have htime : ∀ j,
      ((fun j => if j = id then { w.objs j with pending := true } else w.objs j) j).time =
        (w.objs j).time := by
    intro j
    by_cases hj : j = id <;> simp [hj]
  refine ⟨?_, ?_, ?_, ?_⟩
  · exact timeoutInsert_nodup _ _ _ _ hnd hid
  · have hpw := timeoutInsert_pairwise w.objs (w.objs id).time id w.tlist rfl hv hnorm hsort
    exact hpw.imp (fun {a b} hab => by rw [htime a, htime b]; exact hab)
  · intro j
    by_cases hj : j = id
    · subst hj
      simp only [if_pos rfl]
      exact iff_of_true rfl ((timeoutInsert_mem _ _ _ _ _).mpr (Or.inl rfl))
    · simp only [if_neg hj, timeoutInsert_mem, hj, false_or]
      exact hiff j
  · intro x hx
    rcases (timeoutInsert_mem _ _ _ _ _).mp hx with rfl | hx'
    · rw [htime]
      exact hv
    · rw [htime]
      exact hnorm x hx'

/-- Invariant preservation by the add path: the caller stores a normalized
deadline into a non-pending timeout and calls `uloop_timeout_add`. -/
theorem TInv_add (s : TState) (id : Nat) (t : Timeval) (hv : Normalized t)
    (hinv : TInv s) (hp : (s.objs id).pending = false) :
    TInv (uloop_timeout_add (writeTime s id t) id).2 := by
  have hid : id ∉ s.tlist := fun hm => by
    have h2 := (hinv.2.2.1 id).mpr hm
    rw [hp] at h2
    cases h2
  have hw := TInv_writeTime s id t hinv hid
  have hwp : ((writeTime s id t).objs id).pending = false :=
    (writeTime_objs s id t id).1.trans hp
  have hwt : ((writeTime s id t).objs id).time = t := (writeTime_objs s id t id).2.2.1
  simp only [uloop_timeout_add, hwp, Bool.false_eq_true, if_false]
  exact TInv_insertStep (writeTime s id t) id hw (by rw [hwt]; exact hv) hwp

/-- `uloop_timeout_cancel` preserves the invariant. -/
theorem TInv_cancel (s : TState) (id : Nat) (hinv : TInv s) :
    TInv (uloop_timeout_cancel s id).2 := by
  obtain ⟨hnd, hsort, hiff, hnorm⟩ := hinv
  by_cases hp : (s.objs id).pending = true
  · simp only [uloop_timeout_cancel, hp, Bool.not_true, Bool.false_eq_true, if_false]
    have htime : ∀ j,
        ((fun j => if j = id then { s.objs j with pending := false } else s.objs j) j).time =
          (s.objs j).time := by
      intro j
      by_cases hj : j = id <;> simp [hj]
    refine ⟨hnd.erase id, ?_, ?_, ?_⟩
    · have hpw := hsort.sublist (s.tlist.erase_sublist id)
      exact hpw.imp (fun {a b} hab => by rw [htime a, htime b]; exact hab)
    · intro j
      by_cases hj : j = id
      · subst hj
        simp only [if_pos rfl]
        refine iff_of_false (by simp) ?_
        intro hm
        exact absurd ((hnd.mem_erase_iff).mp hm).1 (by simp)
      · simp only [if_neg hj]
        rw [hnd.mem_erase_iff]
        simp only [hj, ne_eq, not_false_iff, true_and]
        exact hiff j
    · intro x hx
      rw [htime]
      exact hnorm x (List.mem_of_mem_erase hx)
  · have hp' : (s.objs id).pending = false := by
      cases h : (s.objs id).pending
      · rfl
      · exact absurd h hp
    simp only [uloop_timeout_cancel, hp', Bool.not_false, if_true]
    exact ⟨hnd, hsort, hiff, hnorm⟩

/-- One `uloop_process_timeouts` pass preserves the invariant. -/
theorem TInv_fire (s : TState) (now : Timeval) (hinv : TInv s) :
    TInv (uloop_process_timeouts s now).1 := by
  obtain ⟨hnd, hsort, hiff, hnorm⟩ := hinv
  simp only [uloop_process_timeouts, processTimeoutsList_eq]
  have hsplit : s.tlist.takeWhile (firesNow s.objs now) ++
      s.tlist.dropWhile (firesNow s.objs now) = s.tlist :=
    List.takeWhile_append_dropWhile (firesNow s.objs now) s.tlist
  have hnd2 : (s.tlist.takeWhile (firesNow s.objs now) ++
      s.tlist.dropWhile (firesNow s.objs now)).Nodup := by
    rw [hsplit]; exact hnd
  have hdisj := (List.nodup_append.mp hnd2).2.2
  have htime : ∀ j,
      ((fun j => if j ∈ s.tlist.takeWhile (firesNow s.objs now) then
          { s.objs j with pending := false } else s.objs j) j).time = (s.objs j).time := by
    intro j
    by_cases hj : j ∈ s.tlist.takeWhile (firesNow s.objs now) <;> simp [hj]
  refine ⟨?_, ?_, ?_, ?_⟩
  · exact hnd.sublist (List.dropWhile_sublist _)
  · have hpw := hsort.sublist (List.dropWhile_sublist (firesNow s.objs now))
    exact hpw.imp (fun {a b} hab => by rw [htime a, htime b]; exact hab)
  · intro j
    by_cases hj : j ∈ s.tlist.takeWhile (firesNow s.objs now)
    · simp only [if_pos hj]
      exact iff_of_false (by simp) (hdisj hj)
    · simp only [if_neg hj]
      have hm : j ∈ s.tlist.dropWhile (firesNow s.objs now) ↔ j ∈ s.tlist := by
        rw [← hsplit, List.mem_append]
        simp [hj]
      rw [hm]
      exact hiff j
  · intro x hx
    rw [htime]
    exact hnorm x ((List.dropWhile_sublist _).subset hx)

/-- `uloop_timeout_set` with a nonnegative delay and a normalized clock sample
preserves the invariant. -/
theorem TInv_set (s : TState) (id : Nat) (msecs : Int) (now : Timeval)
    (hm : 0 ≤ msecs) (hn : Normalized now) (hinv : TInv s) :
    TInv (uloop_timeout_set s id msecs now).2 := by
  unfold uloop_timeout_set
  by_cases hp : (s.objs id).pending = true
  · simp only [hp, if_true]
    have hc : TInv (uloop_timeout_cancel s id).2 := TInv_cancel s id hinv
    have hcp : ((uloop_timeout_cancel s id).2.objs id).pending = false := by
      simp [uloop_timeout_cancel, hp]
    exact TInv_add _ id _ (setDeadline_normalized msecs now hm hn) hc hcp
  · have hp' : (s.objs id).pending = false := by
      cases h : (s.objs id).pending
      · rfl
      · exact absurd h hp
    simp only [hp', Bool.false_eq_true, if_false]
    exact TInv_add s id _ (setDeadline_normalized msecs now hm hn) hinv hp'

/-- Every valid timer-queue operation preserves the invariant. -/
theorem TInv_tApply (s : TState) (op : TOp) (hv : TOpValid op) (hinv : TInv s) :
    TInv (tApply s op) := by
  cases op with
  | add id t =>
    simp only [tApply]
    by_cases hp : (s.objs id).pending = true
    · simp only [hp, if_true]
      exact hinv
    · have hp' : (s.objs id).pending = false := by
        cases h : (s.objs id).pending
        · rfl
        · exact absurd h hp
      simp only [hp', Bool.false_eq_true, if_false]
      exact TInv_add s id t hv hinv hp'
  | set id msecs now => exact TInv_set s id msecs now hv.1 hv.2 hinv
  | cancel id => exact TInv_cancel s id hinv
  | fire now => exact TInv_fire s now hinv

/-- The invariant holds after any valid operation sequence from any invariant
state. -/
theorem TInv_tRun (ops : List TOp) (s : TState) (hinv : TInv s)
    (hv : ∀ op ∈ ops, TOpValid op) : TInv (tRun s ops) := by
  induction ops generalizing s with
  | nil => exact hinv
  | cons op rest ih =>
    exact ih (tApply s op)
      (TInv_tApply s op (hv op (List.mem_cons_self _ _)) hinv)
      (fun o ho => hv o (List.mem_cons_of_mem _ ho))

/-- The empty timer queue satisfies the invariant. -/
theorem TInv_init : TInv initTState := by
  refine ⟨List.nodup_nil, List.Pairwise.nil, ?_, ?_⟩
  · intro id
    simp [initTState]
  · intro x hx
    simp [initTState] at hx

/-! ## C5: the timer-queue ordering invariant -/

/-- C5 (counterexample): the list is not kept in non-decreasing deadline
order. Adding a timeout with deadline 1400 µs and then one with deadline
500 µs (both normalized) links them as [0, 1]: `tv_diff` compares truncated
milliseconds, so the walk sees the 1400 µs entry as "not strictly later" than
the 500 µs one and places the earlier deadline second. -/
theorem timeout_list_not_deadline_sorted :
    (tRun initTState [TOp.add 0 ⟨0, 1400⟩, TOp.add 1 ⟨0, 500⟩]).tlist = [0, 1] ∧
    ((tRun initTState [TOp.add 0 ⟨0, 1400⟩, TOp.add 1 ⟨0, 500⟩]).objs 0).time = ⟨0, 1400⟩ ∧
    ((tRun initTState [TOp.add 0 ⟨0, 1400⟩, TOp.add 1 ⟨0, 500⟩]).objs 1).time = ⟨0, 500⟩ ∧
    ¬ tvLe { tv_sec := 0, tv_usec := 1400 } { tv_sec := 0, tv_usec := 500 } := by
  refine ⟨by decide, by decide, by decide, by decide⟩

/-- C5 (amended): after any sequence of `uloop_timeout_add`,
`uloop_timeout_set`, `uloop_timeout_cancel` and timer-fire operations with
normalized deadlines (as the loop's own clock produces), the timeout list is
duplicate-free and pairwise ordered by the truncated-millisecond comparison
(`tv_diff(x, y) ≤ 0` for every x linked before y), and every timeout's
`pending` flag is true iff the timeout is linked; moreover `uloop_timeout_add`
inserts the new timeout directly after the maximal initial run of entries not
strictly tv_diff-later, so tv_diff-equal deadlines stay in FIFO insertion
order. -/
theorem timeout_queue_invariant :
    (∀ ops : List TOp, (∀ op ∈ ops, TOpValid op) → TInv (tRun initTState ops)) ∧
    (∀ (objs : Nat → TimerObj) (t : Timeval) (id : Nat) (l : List Nat),
      timeoutInsert objs t id l =
        l.takeWhile (fun x => !decide (tv_diff (objs x).time t > 0)) ++
        id :: l.dropWhile (fun x => !decide (tv_diff (objs x).time t > 0))) :=
  ⟨fun ops hv => TInv_tRun ops initTState TInv_init hv, timeoutInsert_eq⟩

/-- Witness for the amended C5 on a concrete valid operation sequence
(add 1400 µs, add 500 µs, set 2 at 1 ms, cancel 0, fire). -/
theorem timeout_queue_invariant_witness :
    (∀ op ∈ [TOp.add 0 ⟨0, 1400⟩, TOp.add 1 ⟨0, 500⟩,
        TOp.set 2 1 ⟨0, 0⟩, TOp.cancel 0, TOp.fire ⟨0, 3⟩], TOpValid op) ∧
    TInv (tRun initTState [TOp.add 0 ⟨0, 1400⟩, TOp.add 1 ⟨0, 500⟩,
        TOp.set 2 1 ⟨0, 0⟩, TOp.cancel 0, TOp.fire ⟨0, 3⟩]) :=
  ⟨by decide, timeout_queue_invariant.1 _ (by decide)⟩

/-! ## C6: what uloop_process_timeouts fires and returns -/

/-- C6 (counterexample): with one pending timeout whose deadline is 900 µs
after the epoch and `now` at the epoch, `uloop_process_timeouts` fires it even
though its deadline is strictly after `now` — the walk compares truncated
milliseconds (`tv_diff = 0 ≤ 0`), not deadlines. -/
theorem process_timeouts_fires_future_deadline :
    (uloop_process_timeouts tState900us ⟨0, 0⟩).2.1 = [0] ∧
    (tState900us.objs 0).time = ⟨0, 900⟩ ∧
    ¬ tvLe { tv_sec := 0, tv_usec := 900 } { tv_sec := 0, tv_usec := 0 } := by
  refine ⟨by decide, by decide, by decide⟩

/-- C6 (amended): `uloop_process_timeouts` at sampled time `now` fires exactly
the maximal initial run of linked timeouts whose `tv_diff` to `now` is ≤ 0, in
list order, unlinking each and clearing its `pending` flag (its callback then
runs on the already-unlinked timeout, in the order given by the fired list);
it returns the `tv_diff` of the next remaining deadline — a positive number —
or −1 when no timeout remains. -/
theorem process_timeouts_contract (s : TState) (now : Timeval) :
    (uloop_process_timeouts s now).2.1 = s.tlist.takeWhile (firesNow s.objs now) ∧
    (uloop_process_timeouts s now).1.tlist = s.tlist.dropWhile (firesNow s.objs now) ∧
    (∀ j, (uloop_process_timeouts s now).1.objs j =
      if j ∈ s.tlist.takeWhile (firesNow s.objs now) then { s.objs j with pending := false }
      else s.objs j) ∧
    (uloop_process_timeouts s now).2.2 =
      (match s.tlist.dropWhile (firesNow s.objs now) with
       | [] => -1
       | x :: _ => tv_diff (s.objs x).time now) ∧
    ((uloop_process_timeouts s now).1.tlist = [] ∨ 0 < (uloop_process_timeouts s now).2.2) := by
  have he := processTimeoutsList_eq s.objs now s.tlist
  refine ⟨?_, ?_, ?_, ?_, ?_⟩
  · simp only [uloop_process_timeouts, he]
  · simp only [uloop_process_timeouts, he]
  · intro j
    simp only [uloop_process_timeouts, he]
  · simp only [uloop_process_timeouts, he]
  · simp only [uloop_process_timeouts, he]
    cases hd : s.tlist.dropWhile (firesNow s.objs now) with
    | nil => exact Or.inl rfl
    | cons x rest =>
      have hx := dropWhile_head_false hd
      simp only [firesNow, decide_eq_false_iff_not, not_le] at hx
      exact Or.inr hx

/-! ## C9: one reap removes every watcher with the reaped pid -/

/-- The walk of `uloop_handle_processes` over a pid-sorted watcher list splits
it into the non-matching watchers (kept, in order) and the matching ones
(removed and invoked, in order). Sortedness justifies the `break` at the first
greater pid: everything after it is also greater. -/
theorem reapWalk_eq (procs : Nat → ProcObj) (pid : Int) (l : List Nat)
    (hs : l.Pairwise (fun a b => (procs a).pid ≤ (procs b).pid)) :
    reapWalk procs pid l =
      (l.filter (fun j => !((procs j).pid == pid)),
       l.filter (fun j => (procs j).pid == pid)) := by
  induction l with
  | nil => simp [reapWalk]
  | cons p ps ih =>
    rcases List.pairwise_cons.mp hs with ⟨hp, hps⟩
    by_cases h1 : (procs p).pid < pid
    · have hb : ((procs p).pid == pid) = false := by
        simp only [beq_eq_false_iff_ne, ne_eq]
        omega
      simp only [reapWalk, if_pos h1, ih hps, List.filter, hb, Bool.not_false]
    · by_cases h2 : (procs p).pid > pid
      · have hall1 : ∀ j ∈ p :: ps, (!((procs j).pid == pid)) = true := by
          intro j hj
          rcases List.mem_cons.mp hj with rfl | hj'
          · simp only [Bool.not_eq_true', beq_eq_false_iff_ne, ne_eq]
            omega
          · have hle := hp j hj'
            simp only [Bool.not_eq_true', beq_eq_false_iff_ne, ne_eq]
            omega
        have hall2 : ∀ j ∈ p :: ps, ¬ (((procs j).pid == pid) = true) := by
          intro j hj hb
          have h3 := hall1 j hj
          simp only [Bool.not_eq_true'] at h3
          rw [h3] at hb
          cases hb
        simp only [reapWalk, if_neg h1, if_pos h2]
        rw [List.filter_eq_self.mpr hall1, List.filter_eq_nil_iff.mpr hall2]
      · have heq : (procs p).pid = pid := by omega
        have hb : ((procs p).pid == pid) = true := by
          simp only [beq_iff_eq]
          exact heq
        simp only [reapWalk, if_neg h1, if_neg h2, ih hps, List.filter, hb, Bool.not_true]

/-- The insertion walk of `uloop_process_add` places the new watcher directly
after the maximal initial run of watchers whose pid is not strictly greater —
in particular after every watcher with the same pid. -/
theorem procInsert_eq (procs : Nat → ProcObj) (pid : Int) (id : Nat) (l : List Nat) :
    procInsert procs pid id l =
      l.takeWhile (fun x => !decide ((procs x).pid > pid)) ++
      id :: l.dropWhile (fun x => !decide ((procs x).pid > pid)) := by
  induction l with
  | nil => simp [procInsert]
  | cons x xs ih =>
    simp only [procInsert, List.takeWhile, List.dropWhile]
    by_cases h : (procs x).pid > pid
    · simp [h]
    · simp [h, ih]

/-- C9: if several process watchers target the same pid (pid-sorted list, as
`uloop_process_add` maintains — the last conjunct shows insertion is stable,
placing a new watcher after every equal pid), one reap of that pid removes
all of them, keeps exactly the non-matching watchers in order, and invokes
each removed watcher's callback with the reaped status in list (insertion)
order, clearing its `pending` flag. -/
theorem reap_same_pid_removes_all (s : PState) (pid ret : Int)
    (hs : s.plist.Pairwise (fun a b => (s.procs a).pid ≤ (s.procs b).pid)) :
    (uloop_handle_one_reap s pid ret).1.plist =
      s.plist.filter (fun j => !((s.procs j).pid == pid)) ∧
    (uloop_handle_one_reap s pid ret).2 =
      (s.plist.filter (fun j => (s.procs j).pid == pid)).map (fun j => (j, ret)) ∧
    (∀ j ∈ s.plist, (s.procs j).pid = pid →
      ((uloop_handle_one_reap s pid ret).1.procs j).pending = false) ∧
    (∀ (ps : PState) (id : Nat), (ps.procs id).pending = false →
      (uloop_process_add ps id).2.plist =
        ps.plist.takeWhile (fun x => !decide ((ps.procs x).pid > (ps.procs id).pid)) ++
        id :: ps.plist.dropWhile (fun x => !decide ((ps.procs x).pid > (ps.procs id).pid))) := by
  have he := reapWalk_eq s.procs pid s.plist hs
  refine ⟨?_, ?_, ?_, ?_⟩
  · simp only [uloop_handle_one_reap, he]
  · simp only [uloop_handle_one_reap, he]
  · intro j hj hpid
    have hjm : j ∈ s.plist.filter (fun j => (s.procs j).pid == pid) := by
      rw [List.mem_filter]
      exact ⟨hj, by simp [hpid]⟩
    simp only [uloop_handle_one_reap, he, hjm, if_pos]
  · intro ps id hp
    simp only [uloop_process_add, hp, Bool.false_eq_true, if_false]
    exact procInsert_eq ps.procs (ps.procs id).pid id ps.plist

/-- Witness for C9: watchers 0 and 1 both target pid 5 and watcher 2 targets
pid 7; reaping pid 5 with status 77 removes 0 and 1, invokes (0,77) then
(1,77), and keeps watcher 2. -/
theorem reap_same_pid_removes_all_witness :
    pStateReap.plist.Pairwise
      (fun a b => (pStateReap.procs a).pid ≤ (pStateReap.procs b).pid) ∧
    ((uloop_handle_one_reap pStateReap 5 77).1.plist =
        pStateReap.plist.filter (fun j => !((pStateReap.procs j).pid == 5)) ∧
      (uloop_handle_one_reap pStateReap 5 77).2 =
        (pStateReap.plist.filter (fun j => (pStateReap.procs j).pid == 5)).map
          (fun j => (j, 77)) ∧
      (∀ j ∈ pStateReap.plist, (pStateReap.procs j).pid = 5 →
        ((uloop_handle_one_reap pStateReap 5 77).1.procs j).pending = false) ∧
      (∀ (ps : PState) (id : Nat), (ps.procs id).pending = false →
        (uloop_process_add ps id).2.plist =
          ps.plist.takeWhile (fun x => !decide ((ps.procs x).pid > (ps.procs id).pid)) ++
          id :: ps.plist.dropWhile (fun x => !decide ((ps.procs x).pid > (ps.procs id).pid)))) :=
  ⟨by decide, reap_same_pid_removes_all pStateReap 5 77 (by decide)⟩

/-! ## C4: the edge-trigger recursion guard -/

/-- The stack scan updates the first frame for the fd: a nonnegative event
word is OR-ed together with the buffered bit. -/
theorem fdStackScan_found (fd : Nat) (e : Int) (post : List FrameSt) (f : FrameSt)
    (pre : List FrameSt) (hf : f.fd = some fd) (hpre : ∀ g ∈ pre, g.fd ≠ some fd)
    (he : 0 ≤ e) :
    fdStackScan fd e (pre ++ f :: post) =
      (pre ++ { f with events := f.events ||| (e.toNat ||| ULOOP_EVENT_BUFFERED) } :: post,
       true) := by
  induction pre with
  | nil =>
    have hneg : ¬ e < 0 := by omega
    simp [fdStackScan, hf, hneg]
  | cons g gs ih =>
    have hg : ¬ (g.fd = some fd) := hpre g (List.mem_cons_self _ _)
    simp [fdStackScan, hg, ih (fun x hx => hpre x (List.mem_cons_of_mem _ hx))]

/-- The stack scan with the delete marker (−1) nulls the first frame for the
fd. -/
theorem fdStackScan_del (fd : Nat) (post : List FrameSt) (f : FrameSt)
    (pre : List FrameSt) (hf : f.fd = some fd) (hpre : ∀ g ∈ pre, g.fd ≠ some fd) :
    fdStackScan fd (-1) (pre ++ f :: post) = (pre ++ { f with fd := none } :: post, true) := by
  induction pre with
  | nil => simp [fdStackScan, hf]
  | cons g gs ih =>
    have hg : ¬ (g.fd = some fd) := hpre g (List.mem_cons_self _ _)
    simp [fdStackScan, hg, ih (fun x hx => hpre x (List.mem_cons_of_mem _ hx))]

/-- Folding form of `uloop_fd_stack_event` for an edge-triggered fd whose
frame is on the stack. -/
theorem uloop_fd_stack_event_fold (fds : Nat → FdObj) (fd : Nat) (pre post : List FrameSt)
    (f : FrameSt) (e : Int) (hedge : (fds fd).flags &&& ULOOP_EDGE_TRIGGER ≠ 0)
    (hf : f.fd = some fd) (hpre : ∀ g ∈ pre, g.fd ≠ some fd) (he : 0 ≤ e) :
    uloop_fd_stack_event fds (pre ++ f :: post) fd e =
      (pre ++ { f with events := f.events ||| (e.toNat ||| ULOOP_EVENT_BUFFERED) } :: post,
       true) := by
  unfold uloop_fd_stack_event
  rw [if_neg hedge]
  exact fdStackScan_found fd e post f pre hf hpre he

/-- Delete-marker form of `uloop_fd_stack_event` for an edge-triggered fd
whose frame is on the stack. -/
theorem uloop_fd_stack_event_del (fds : Nat → FdObj) (fd : Nat) (pre post : List FrameSt)
    (f : FrameSt) (hedge : (fds fd).flags &&& ULOOP_EDGE_TRIGGER ≠ 0)
    (hf : f.fd = some fd) (hpre : ∀ g ∈ pre, g.fd ≠ some fd) :
    uloop_fd_stack_event fds (pre ++ f :: post) fd (-1) =
      (pre ++ { f with fd := none } :: post, true) := by
  unfold uloop_fd_stack_event
  rw [if_neg hedge]
  exact fdStackScan_del fd post f pre hf hpre

/-- `uloop_fd_stack_event` reads only the fd's flags, so any fd-heap change
that keeps them is invisible to it. -/
theorem uloop_fd_stack_event_flag_only (fds2 fds : Nat → FdObj) (stack : List FrameSt)
    (fd : Nat) (e : Int) (h : (fds2 fd).flags = (fds fd).flags) :
    uloop_fd_stack_event fds2 stack fd e = uloop_fd_stack_event fds stack fd e := by
  unfold uloop_fd_stack_event
  rw [h]

/-- The invocation count of the dispatch do-while loop: one initial call plus
one re-invocation per leading callback run that neither deleted its own fd nor
left the frame without maskable buffered events. -/
theorem cbInvocations_length (outs : List CbOut) (e : Nat) :
    (cbInvocations outs e).length =
      (outs.takeWhile
        (fun o => !o.deleted && !(o.buffered &&& ULOOP_EVENT_MASK == 0))).length + 1 := by
  induction outs generalizing e with
  | nil => rfl
  | cons o rest ih =>
    by_cases hstop : o.deleted = true ∨ o.buffered &&& ULOOP_EVENT_MASK = 0
    · have hpred : (!o.deleted && !(o.buffered &&& ULOOP_EVENT_MASK == 0)) = false := by
        rcases hstop with h | h
        · simp [h]
        · simp [h]
      simp [cbInvocations, hstop, List.takeWhile, hpred]
    · push_neg at hstop
      obtain ⟨hdel, hbuf⟩ := hstop
      have hdel' : o.deleted = false := by
        cases h : o.deleted
        · rfl
        · exact absurd h hdel
      have hpred : (!o.deleted && !(o.buffered &&& ULOOP_EVENT_MASK == 0)) = true := by
        simp [hdel', hbuf]
      have hcond : ¬ (o.deleted = true ∨ o.buffered &&& ULOOP_EVENT_MASK = 0) := by
        rw [hdel']
        simp [hbuf]
      simp only [cbInvocations, hcond, if_false, List.takeWhile, hpred, List.length_cons,
        ih (o.buffered &&& ULOOP_EVENT_MASK)]

/-- takeWhile cannot pass an element that falsifies the predicate. -/
theorem takeWhile_stop_length {α : Type} (p : α → Bool) (pre : List α) (o : α)
    (rest : List α) (ho : p o = false) :
    (List.takeWhile p (pre ++ o :: rest)).length ≤ pre.length := by
  induction pre with
  | nil => simp [List.takeWhile, ho]
  | cons x xs ih =>
    by_cases hx : p x
    · simpa [List.takeWhile, hx] using ih
    · simp [List.takeWhile, hx]

/-- C4: the edge-trigger recursion guard. (1) While an edge-triggered fd's
frame is on the dispatch stack, a further nonnegative event for it is folded
into the frame — its bits OR-ed together with `ULOOP_EVENT_BUFFERED`; (2) in
that case `uloop_run_events` consumes the batch entry and moves on without
re-entering the callback; (3) the dispatch do-while re-invokes the callback
exactly until a run leaves the frame with no maskable buffered events (or
deletes the fd); (4) once a run calls `uloop_fd_delete` on its own fd there is
no further invocation in the same dispatch; (5) `uloop_fd_delete` on a
registered edge-triggered fd marks the fd's stack frame gone, which is what
terminates the loop in (3)-(4). -/
theorem edge_trigger_reentrancy :
    (∀ (fds : Nat → FdObj) (pre post : List FrameSt) (f : FrameSt) (fd : Nat) (e : Int),
      (fds fd).flags &&& ULOOP_EDGE_TRIGGER ≠ 0 → f.fd = some fd →
      (∀ g ∈ pre, g.fd ≠ some fd) → 0 ≤ e →
      uloop_fd_stack_event fds (pre ++ f :: post) fd e =
        (pre ++ { f with events := f.events ||| (e.toNat ||| ULOOP_EVENT_BUFFERED) } :: post,
         true)) ∧
    (∀ (o : EvOracle) (flog : List Int) (fds : Nat → FdObj) (stack : List FrameSt)
        (dlog : List (Nat × List Nat)) (e : FdEntry) (rest : List FdEntry) (fd : Nat),
      e.fd = some fd → (fds fd).has_cb = true →
      (uloop_fd_stack_event fds stack fd (Int.ofNat e.events)).2 = true →
      runEventsGo o flog fds stack dlog (e :: rest) =
        runEventsGo o flog fds (uloop_fd_stack_event fds stack fd (Int.ofNat e.events)).1
          dlog rest) ∧
    (∀ (outs : List CbOut) (e : Nat),
      (cbInvocations outs e).length =
        (outs.takeWhile
          (fun o => !o.deleted && !(o.buffered &&& ULOOP_EVENT_MASK == 0))).length + 1) ∧
    (∀ (pre : List CbOut) (o : CbOut) (rest : List CbOut) (e : Nat), o.deleted = true →
      (cbInvocations (pre ++ o :: rest) e).length ≤ pre.length + 1) ∧
    (∀ (s : EvSt) (backendRet : Int) (fd : Nat) (pre post : List FrameSt) (f : FrameSt),
      (s.fds fd).registered = true → (s.fds fd).flags &&& ULOOP_EDGE_TRIGGER ≠ 0 →
      s.fd_stack = pre ++ f :: post → f.fd = some fd → (∀ g ∈ pre, g.fd ≠ some fd) →
      (uloop_fd_delete s backendRet fd).2.fd_stack =
        pre ++ { f with fd := none } :: post) := by
  refine ⟨fun fds pre post f fd e => uloop_fd_stack_event_fold fds fd pre post f e, ?_,
    cbInvocations_length, ?_, ?_⟩
  · intro o flog fds stack dlog e rest fd he hcb hst
    simp only [runEventsGo, he, hcb, Bool.not_true, Bool.false_eq_true, if_false, hst,
      if_true]
  · intro pre o rest e hdel
    rw [cbInvocations_length]
    have hstop : (!o.deleted && !(o.buffered &&& ULOOP_EVENT_MASK == 0)) = false := by
      simp [hdel]
    have := takeWhile_stop_length
      (fun o => !o.deleted && !(o.buffered &&& ULOOP_EVENT_MASK == 0)) pre o rest hstop
    omega
  · intro s backendRet fd pre post f hreg hedge hstack hf hpre
    simp only [uloop_fd_delete, batchNulled, hreg, Bool.not_true, Bool.false_eq_true, if_false]
    rw [uloop_fd_stack_event_flag_only _ s.fds _ _ _ (by simp)]
    rw [hstack, uloop_fd_stack_event_del s.fds fd pre post f hedge hf hpre]

/-- Witness for C4 at concrete inputs: fd 5 (edge-triggered, registered, with
callback), its frame on the stack; a READ event folds to buffered bits 17; a
one-run callback trace with buffered READ re-invokes once; a first-run delete
stops after one invocation; `uloop_fd_delete` nulls the frame. -/
theorem edge_trigger_reentrancy_witness :
    ((edgeFds 5).flags &&& ULOOP_EDGE_TRIGGER ≠ 0 ∧ frame5.fd = some 5) ∧
    (uloop_fd_stack_event edgeFds [frame5] 5 1 =
      ([{ fd := some 5, events := 0 ||| (Int.toNat 1 ||| ULOOP_EVENT_BUFFERED) }], true)) ∧
    (runEventsGo emptyEvOracle [] edgeFds [frame5] [] [{ fd := some 5, events := 1 }] =
      runEventsGo emptyEvOracle [] edgeFds
        (uloop_fd_stack_event edgeFds [frame5] 5
          (Int.ofNat (FdEntry.events { fd := some 5, events := 1 }))).1 [] []) ∧
    ((cbInvocations [{ buffered := ULOOP_READ, deleted := false }] 1).length =
      ([({ buffered := ULOOP_READ, deleted := false } : CbOut)].takeWhile
        (fun o => !o.deleted && !(o.buffered &&& ULOOP_EVENT_MASK == 0))).length + 1 ∧
      (cbInvocations [{ buffered := ULOOP_READ, deleted := false }] 1).length = 2) ∧
    ((cbInvocations [({ buffered := 0, deleted := true } : CbOut)] 1).length ≤ 0 + 1) ∧
    ((uloop_fd_delete edgeEvSt 0 5).2.fd_stack = [{ frame5 with fd := none }]) := by
  refine ⟨⟨by decide, rfl⟩, ?_, ?_, ⟨?_, by decide⟩, ?_, ?_⟩
  · have h := edge_trigger_reentrancy.1 edgeFds [] [] frame5 5 1 (by decide) rfl
      (by intro g hg; cases hg) (by decide)
    simpa using h
  · exact edge_trigger_reentrancy.2.1 emptyEvOracle [] edgeFds [frame5] []
      { fd := some 5, events := 1 } [] 5 rfl (by decide) (by decide)
  · exact edge_trigger_reentrancy.2.2.1 [{ buffered := ULOOP_READ, deleted := false }] 1
  · exact edge_trigger_reentrancy.2.2.2.1 [] { buffered := 0, deleted := true } [] 1 rfl
  · have h := edge_trigger_reentrancy.2.2.2.2 edgeEvSt 0 5 [] [] frame5 (by decide)
      (by decide) rfl rfl (by intro g hg; cases hg)
    simpa using h

/-! ## C1: when the loop calls the backend, and how much it dispatches -/

/-- The consume loop never touches the fetch log. -/
theorem runEventsGo_fetchLog (o : EvOracle) (flog : List Int) (fds : Nat → FdObj)
    (entries : List FdEntry) :
    ∀ (stack : List FrameSt) (dlog : List (Nat × List Nat)),
      (runEventsGo o flog fds stack dlog entries).fetchLog = flog := by
  induction entries with
  | nil =>
    intro stack dlog
    rfl
  | cons e rest ih =>
    intro stack dlog
    cases he : e.fd with
    | none =>
      simp only [runEventsGo, he]
      exact ih stack dlog
    | some fd =>
      cases hcb : (fds fd).has_cb with
      | false =>
        simp only [runEventsGo, he, hcb, Bool.not_false, if_true]
        exact ih stack dlog
      | true =>
        cases hst : (uloop_fd_stack_event fds stack fd (Int.ofNat e.events)).2 with
        | true =>
          simp only [runEventsGo, he, hcb, Bool.not_true, Bool.false_eq_true, if_false, hst,
            if_true]
          exact ih _ dlog
        | false =>
          simp only [runEventsGo, he, hcb, Bool.not_true, Bool.false_eq_true, if_false, hst]

/-- The consume loop dispatches at most one entry. -/
theorem runEventsGo_dispatch_len (o : EvOracle) (flog : List Int) (fds : Nat → FdObj)
    (entries : List FdEntry) :
    ∀ (stack : List FrameSt) (dlog : List (Nat × List Nat)),
      (runEventsGo o flog fds stack dlog entries).dispatchLog.length ≤ dlog.length + 1 := by
  induction entries with
  | nil =>
    intro stack dlog
    exact Nat.le_succ _
  | cons e rest ih =>
    intro stack dlog
    cases he : e.fd with
    | none =>
      simp only [runEventsGo, he]
      exact ih stack dlog
    | some fd =>
      cases hcb : (fds fd).has_cb with
      | false =>
        simp only [runEventsGo, he, hcb, Bool.not_false, if_true]
        exact ih stack dlog
      | true =>
        cases hst : (uloop_fd_stack_event fds stack fd (Int.ofNat e.events)).2 with
        | true =>
          simp only [runEventsGo, he, hcb, Bool.not_true, Bool.false_eq_true, if_false, hst,
            if_true]
          exact ih _ dlog
        | false =>
          simp only [runEventsGo, he, hcb, Bool.not_true, Bool.false_eq_true, if_false, hst,
            List.length_append, List.length_cons, List.length_nil]
          omega

/-- `uloop_run_events` appends the timeout it passed to `uloop_fetch_events`
to the fetch log exactly when the previous batch was drained. -/
theorem uloop_run_events_fetchLog (o : EvOracle) (timeout : Int) (s : EvSt) :
    (uloop_run_events o timeout s).fetchLog =
      (if s.batch.isEmpty then s.fetchLog ++ [timeout] else s.fetchLog) := by
  unfold uloop_run_events runEventsLoop
  by_cases hb : s.batch.isEmpty <;> simp [hb, runEventsGo_fetchLog]

/-- One `uloop_run_events` call dispatches at most one entry. -/
theorem uloop_run_events_dispatch_len (o : EvOracle) (timeout : Int) (s : EvSt) :
    (uloop_run_events o timeout s).dispatchLog.length ≤ s.dispatchLog.length + 1 := by
  unfold uloop_run_events runEventsLoop
  by_cases hb : s.batch.isEmpty
  · simpa [hb] using
      runEventsGo_dispatch_len o (s.fetchLog ++ [timeout]) s.fds o.fetched s.fd_stack
        s.dispatchLog
  · simpa [hb] using
      runEventsGo_dispatch_len o s.fetchLog s.fds s.batch s.fd_stack s.dispatchLog

/-- The not-cancelled iteration fires the timers and then consults the
backend iff a timeout remains pending. -/
theorem uloop_iteration_ev (o : EvOracle) (now : Timeval) (s : IterSt)
    (hc : s.cancelled = false) :
    (uloop_iteration o now s).ev =
      (if (uloop_process_timeouts s.ts now).2.2 ≥ 0 then
        uloop_run_events o (uloop_process_timeouts s.ts now).2.2 s.ev
       else s.ev) := by
  simp only [uloop_iteration, hc, Bool.false_eq_true, if_false]
  split <;> rfl

/-- C1 (amended): in a not-cancelled iteration of `uloop_run_timeout`, after
expired timers are fired, the loop calls the backend fetch with the
milliseconds until the next pending deadline — provided a timeout is pending
(`next_time ≥ 0`) and the previous batch is drained; with a leftover batch no
fetch happens, and when no timeout is pending the backend is not entered at
all in that iteration. In every case at most one ready fd event is
dispatched. -/
theorem iteration_backend_contract (o : EvOracle) (now : Timeval) (s : IterSt)
    (hc : s.cancelled = false) :
    ((uloop_process_timeouts s.ts now).2.2 ≥ 0 → s.ev.batch = [] →
      (uloop_iteration o now s).ev.fetchLog =
        s.ev.fetchLog ++ [(uloop_process_timeouts s.ts now).2.2]) ∧
    ((uloop_process_timeouts s.ts now).2.2 ≥ 0 → s.ev.batch ≠ [] →
      (uloop_iteration o now s).ev.fetchLog = s.ev.fetchLog) ∧
    ((uloop_process_timeouts s.ts now).2.2 < 0 → (uloop_iteration o now s).ev = s.ev) ∧
    (uloop_iteration o now s).ev.dispatchLog.length ≤ s.ev.dispatchLog.length + 1 := by
  have hev := uloop_iteration_ev o now s hc
  refine ⟨?_, ?_, ?_, ?_⟩
  · intro hge hb
    rw [hev, if_pos hge, uloop_run_events_fetchLog]
    simp [hb]
  · intro hge hb
    rw [hev, if_pos hge, uloop_run_events_fetchLog]
    have : ¬ s.ev.batch.isEmpty := by
      cases hbb : s.ev.batch
      · exact absurd hbb hb
      · simp [hbb]
    simp [this]
  · intro hlt
    rw [hev, if_neg (by omega)]
  · by_cases hge : (uloop_process_timeouts s.ts now).2.2 ≥ 0
    · rw [hev, if_pos hge]
      exact uloop_run_events_dispatch_len o _ s.ev
    · rw [hev, if_neg hge]
      exact Nat.le_succ _

/-- C1 (counterexample): with no pending timeout (and the loop not
cancelled, batch drained), the iteration makes no backend fetch call at all —
the claimed fetch "with an indefinite timeout" never happens, because
`uloop_run_events` is only called under `next_time >= 0` (uloop.c:669). -/
theorem iteration_no_fetch_without_timeout :
    iterNoTimeout.ts.tlist = [] ∧ iterNoTimeout.ev.batch = [] ∧
    iterNoTimeout.cancelled = false ∧
    ¬ (1 ≤ (uloop_iteration emptyEvOracle { tv_sec := 0, tv_usec := 0 }
        iterNoTimeout).ev.fetchLog.length) := by
  refine ⟨rfl, rfl, rfl, by decide⟩

/-- Witness for the amended C1: one pending timeout 2 ms out, drained batch,
not cancelled — the iteration fetches with timeout 2 and dispatches nothing
beyond the one-entry bound. -/
theorem iteration_backend_contract_witness :
    iterFuture.cancelled = false ∧
    (uloop_process_timeouts iterFuture.ts { tv_sec := 0, tv_usec := 0 }).2.2 ≥ 0 ∧
    iterFuture.ev.batch = [] ∧
    (uloop_iteration emptyEvOracle { tv_sec := 0, tv_usec := 0 } iterFuture).ev.fetchLog =
      iterFuture.ev.fetchLog ++
        [(uloop_process_timeouts iterFuture.ts { tv_sec := 0, tv_usec := 0 }).2.2] ∧
    (uloop_iteration emptyEvOracle { tv_sec := 0, tv_usec := 0 }
        iterFuture).ev.dispatchLog.length ≤ iterFuture.ev.dispatchLog.length + 1 :=
  ⟨rfl, by decide, rfl,
   (iteration_backend_contract emptyEvOracle { tv_sec := 0, tv_usec := 0 } iterFuture rfl).1
     (by decide) rfl,
   (iteration_backend_contract emptyEvOracle { tv_sec := 0, tv_usec := 0 } iterFuture
     rfl).2.2.2⟩

/-! ## C10: the sentinel timeout is left linked on a cancelled exit -/

/-- Cancelling one timeout keeps any other pending timeout pending and
linked. -/
theorem cancel_keeps_other (s : TState) (t sent : Nat) (hne : sent ≠ t)
    (hp : (s.objs sent).pending = true) (hm : sent ∈ s.tlist) :
    ((uloop_timeout_cancel s t).2.objs sent).pending = true ∧
      sent ∈ (uloop_timeout_cancel s t).2.tlist := by
  by_cases hpt : (s.objs t).pending = true
  · simp only [uloop_timeout_cancel, hpt, Bool.not_true, Bool.false_eq_true, if_false]
    refine ⟨?_, ?_⟩
    · simp only [hne, if_false]
      exact hp
    · exact (List.mem_erase_of_ne hne).mpr hm
  · have hpt' : (s.objs t).pending = false := by
      cases h : (s.objs t).pending
      · rfl
      · exact absurd h hpt
    simp only [uloop_timeout_cancel, hpt', Bool.not_false, if_true]
    exact ⟨hp, hm⟩

/-- Registering a non-pending timeout via `uloop_timeout_set` links it and
sets `pending`. -/
theorem timeout_set_registers (s : TState) (id : Nat) (msecs : Int) (now : Timeval)
    (hp : (s.objs id).pending = false) :
    ((uloop_timeout_set s id msecs now).2.objs id).pending = true ∧
      id ∈ (uloop_timeout_set s id msecs now).2.tlist := by
  unfold uloop_timeout_set
  simp only [hp, Bool.false_eq_true, if_false]
  have hwp : ((writeTime s id (setDeadline msecs now)).objs id).pending = false :=
    (writeTime_objs s id (setDeadline msecs now) id).1.trans hp
  simp only [uloop_timeout_add, hwp, Bool.false_eq_true, if_false]
  refine ⟨by simp, ?_⟩
  exact (timeoutInsert_mem _ _ _ _ _).mpr (Or.inl rfl)

/-- The timer-firing pass of the run loop keeps the sentinel pending and
linked as long as the sentinel did not fire, provided the user timer
callbacks do. -/
theorem fireTimersGo_keeps_sentinel (o : RunOracle) (i sent : Nat) (now : Timeval)
    (hcb : ∀ k t s, SentLive sent s → SentLive sent (o.timerCb k t s)) :
    ∀ (fuel : Nat) (s : RunSt), SentLive sent s →
      (fireTimersGo o i sent now fuel s).2.2 = false →
      SentLive sent (fireTimersGo o i sent now fuel s).1 := by
  intro fuel
  induction fuel with
  | zero =>
    intro s hs _
    exact hs
  | succ n ih =>
    intro s hs hnf
    cases hl : s.ts.tlist with
    | nil =>
      simp only [fireTimersGo, hl]
      exact hs
    | cons t rest =>
      simp only [fireTimersGo, hl] at hnf ⊢
      by_cases hres : tv_diff ((s.ts.objs t).time) now > 0
      · rw [if_pos hres]
        exact hs
      · rw [if_neg hres] at hnf ⊢
        by_cases hts : t = sent
        · rw [if_pos hts] at hnf
          exact absurd (show (true : Bool) = false from hnf) (by decide)
        · rw [if_neg hts] at hnf ⊢
          have hkeep := cancel_keeps_other s.ts t sent (Ne.symm hts) hs.1 hs.2
          exact ih _ (hcb i t _ hkeep) hnf

/-- The run loop keeps the sentinel pending and linked as long as the
sentinel never fired, provided every oracle-supplied callback effect does. -/
theorem runLoopGo_keeps_sentinel (o : RunOracle) (sent : Nat) (ffuel : Nat)
    (hreap : ∀ i s, SentLive sent s → SentLive sent (o.reapEff i s))
    (hcb : ∀ i t s, SentLive sent s → SentLive sent (o.timerCb i t s))
    (hev : ∀ i s, SentLive sent s → SentLive sent (o.evEff i s)) :
    ∀ (fuel i : Nat) (s : RunSt), SentLive sent s →
      (runLoopGo o sent ffuel fuel i s).2 = false →
      SentLive sent (runLoopGo o sent ffuel fuel i s).1 := by
  intro fuel
  induction fuel with
  | zero =>
    intro i s hs _
    exact hs
  | succ n ih =>
    intro i s hs hnf
    simp only [runLoopGo] at hnf ⊢
    set s1 := (if s.do_sigchld then o.reapEff i { s with do_sigchld := false } else s)
      with hs1def
    have hs1 : SentLive sent s1 := by
      rw [hs1def]
      split
      · exact hreap i _ hs
      · exact hs
    by_cases hc1 : s1.cancelled = true
    · rw [if_pos hc1]
      exact hs1
    · rw [if_neg hc1] at hnf ⊢
      set fr := fireTimersGo o i sent (o.now i) ffuel s1 with hfrdef
      by_cases hc2 : fr.1.cancelled = true
      · rw [if_pos hc2] at hnf ⊢
        exact fireTimersGo_keeps_sentinel o i sent (o.now i) hcb ffuel s1 hs1 hnf
      · rw [if_neg hc2] at hnf ⊢
        set s3 := (if fr.2.1 ≥ 0 then o.evEff i fr.1 else fr.1) with hs3def
        by_cases hc3 : s3.cancelled = true ∨ s3.reached = true
        · rw [if_pos hc3] at hnf ⊢
          have hfr1 : SentLive sent fr.1 :=
            fireTimersGo_keeps_sentinel o i sent (o.now i) hcb ffuel s1 hs1 hnf
          rw [hs3def]
          split
          · exact hev i _ hfr1
          · exact hfr1
        · rw [if_neg hc3] at hnf ⊢
          have hnf' : (fr.2.2 || (runLoopGo o sent ffuel n (i + 1) s3).2) = false := hnf
          have h1 : fr.2.2 = false := by
            cases h : fr.2.2
            · rfl
            · rw [h] at hnf'
              simp at hnf'
          have h2 : (runLoopGo o sent ffuel n (i + 1) s3).2 = false := by
            cases h : (runLoopGo o sent ffuel n (i + 1) s3).2
            · rfl
            · rw [h] at hnf'
              simp at hnf'
          have hfr1 : SentLive sent fr.1 :=
            fireTimersGo_keeps_sentinel o i sent (o.now i) hcb ffuel s1 hs1 h1
          have hs3 : SentLive sent s3 := by
            rw [hs3def]
            split
            · exact hev i _ hfr1
            · exact hfr1
          exact ih (i + 1) s3 hs3 h2

/-- C10: when `uloop_run_timeout T` with `T ≥ 0` registers its sentinel (the
sentinel is fresh, so `uloop_timeout_set` succeeds) and the call returns with
the sentinel never having fired (as on a cancellation), the sentinel timeout
is still pending and still linked in the global timeout list after the call
returns: no code on the exit path cancels it. Oracle-abstracted callback
effects are assumed not to cancel the sentinel themselves (no third party
knows the address of the stack-local `uloop_global_timer`). -/
theorem run_timeout_sentinel_survives (o : RunOracle) (sent : Nat) (ffuel fuel : Nat)
    (T : Int) (s0 : RunSt) (hT : 0 ≤ T)
    (hfresh : (s0.ts.objs sent).pending = false)
    (hreap : ∀ i s, SentLive sent s → SentLive sent (o.reapEff i s))
    (hcb : ∀ i t s, SentLive sent s → SentLive sent (o.timerCb i t s))
    (hev : ∀ i s, SentLive sent s → SentLive sent (o.evEff i s))
    (hnof : (uloop_run_timeout o sent ffuel fuel T s0).2.2 = false) :
    SentLive sent (uloop_run_timeout o sent ffuel fuel T s0).1 := by
  unfold uloop_run_timeout at hnof ⊢
  simp only [ge_iff_le, hT, if_true] at hnof ⊢
  have hset := timeout_set_registers s0.ts sent T o.regNow hfresh
  exact runLoopGo_keeps_sentinel o sent ffuel hreap hcb hev fuel 0 _ hset hnof

/-- Witness for C10: running `uloop_run_timeout 50` on an already-cancelled
loop registers sentinel 3 and exits through the cancellation break on the
first iteration, leaving the sentinel pending and linked. -/
theorem run_timeout_sentinel_survives_witness :
    ((0 : Int) ≤ 50 ∧ (cancelledRunSt.ts.objs 3).pending = false ∧
      (uloop_run_timeout idRunOracle 3 4 2 50 cancelledRunSt).2.2 = false) ∧
    SentLive 3 (uloop_run_timeout idRunOracle 3 4 2 50 cancelledRunSt).1 :=
  ⟨⟨by decide, rfl, by decide⟩,
   run_timeout_sentinel_survives idRunOracle 3 4 2 50 cancelledRunSt (by decide) rfl
     (fun _ _ h => h) (fun _ _ _ h => h) (fun _ _ h => h) (by decide)⟩

end Uloop
